import Mathlib

/-!
Verification development for the CPU rasterization and shading pipeline of
the repository (src/src/framebuffer.rs, src/src/triangle.rs, src/src/shader.rs).

Floating point model: Rust f32 values are embedded as exact rationals plus the
special values NaN, +Inf and -Inf.  Arithmetic mirrors IEEE-754 propagation of
the special values (NaN absorbs, Inf - Inf = NaN, 0 * Inf = NaN, x / NaN = NaN,
comparisons with NaN are false, Rust f32 min and max ignore a NaN argument),
while finite arithmetic is exact (rounding and overflow of finite values are
idealized away; signed zero is collapsed to the single rational 0).
Casts mirror Rust: `as i32` saturates and maps NaN to 0, `as u8` saturates,
`as u32` wraps, and integer-valued wrapping arithmetic is taken modulo 2^32.
-/

set_option allowUnsafeReducibility true
attribute [local semireducible] Rat.add Rat.mul Rat.inv Rat.sub Rat.ofScientific

/-- Model of a Rust f32 value: NaN, +infinity, -infinity, or an exact finite
value represented as a rational. -/
inductive F32 where
  | nan : F32
  | inf : F32
  | ninf : F32
  | val : ℚ → F32
deriving DecidableEq, Repr

/-- Shorthand for embedding a rational literal as a finite f32 value. -/
def fv (q : ℚ) : F32 := F32.val q

namespace F32

/-- IEEE negation. -/
def fNeg : F32 → F32
  | nan => nan
  | inf => ninf
  | ninf => inf
  | val q => val (-q)

/-- IEEE addition (finite part exact). -/
def fAdd : F32 → F32 → F32
  | nan, _ => nan
  | _, nan => nan
  | inf, ninf => nan
  | ninf, inf => nan
  | inf, _ => inf
  | _, inf => inf
  | ninf, _ => ninf
  | _, ninf => ninf
  | val a, val b => val (a + b)

/-- IEEE subtraction, defined as addition of the negation. -/
def fSub (a b : F32) : F32 := fAdd a (fNeg b)

/-- IEEE multiplication (finite part exact); 0 * Inf = NaN. -/
def fMul : F32 → F32 → F32
  | nan, _ => nan
  | _, nan => nan
  | inf, inf => inf
  | inf, ninf => ninf
  | ninf, inf => ninf
  | ninf, ninf => inf
  | inf, val q => if q = 0 then nan else if 0 < q then inf else ninf
  | val q, inf => if q = 0 then nan else if 0 < q then inf else ninf
  | ninf, val q => if q = 0 then nan else if 0 < q then ninf else inf
  | val q, ninf => if q = 0 then nan else if 0 < q then ninf else inf
  | val a, val b => val (a * b)

/-- IEEE division (finite part exact); q / 0 gives a signed infinity (0 treated
as +0), 0 / 0 and Inf / Inf give NaN, finite / Inf gives 0. -/
def fDiv : F32 → F32 → F32
  | nan, _ => nan
  | _, nan => nan
  | inf, inf => nan
  | inf, ninf => nan
  | ninf, inf => nan
  | ninf, ninf => nan
  | inf, val q => if 0 ≤ q then inf else ninf
  | ninf, val q => if 0 ≤ q then ninf else inf
  | val _, inf => val 0
  | val _, ninf => val 0
  | val a, val b =>
      if b = 0 then (if a = 0 then nan else if 0 < a then inf else ninf)
      else val (a / b)

/-- IEEE absolute value. -/
def fAbs : F32 → F32
  | nan => nan
  | inf => inf
  | ninf => inf
  | val q => val |q|

/-- IEEE strict less-than: false whenever a NaN is involved. -/
def fLt : F32 → F32 → Bool
  | nan, _ => false
  | _, nan => false
  | ninf, ninf => false
  | ninf, _ => true
  | inf, _ => false
  | val _, ninf => false
  | val _, inf => true
  | val a, val b => decide (a < b)

/-- IEEE less-or-equal: false whenever a NaN is involved. -/
def fLe : F32 → F32 → Bool
  | nan, _ => false
  | _, nan => false
  | ninf, _ => true
  | inf, inf => true
  | inf, _ => false
  | val _, ninf => false
  | val _, inf => true
  | val a, val b => decide (a ≤ b)

/-- IEEE greater-or-equal, used by the backface cull and coverage tests. -/
def fGe (a b : F32) : Bool := fLe b a

/-- Rust f32 min: if one argument is NaN the other is returned. -/
def fMin : F32 → F32 → F32
  | nan, b => b
  | a, nan => a
  | ninf, _ => ninf
  | _, ninf => ninf
  | inf, b => b
  | a, inf => a
  | val a, val b => val (min a b)

/-- Rust f32 max: if one argument is NaN the other is returned. -/
def fMax : F32 → F32 → F32
  | nan, b => b
  | a, nan => a
  | inf, _ => inf
  | _, inf => inf
  | ninf, b => b
  | a, ninf => a
  | val a, val b => val (max a b)

/-- Rust f32 clamp: lo if self < lo, hi if self > hi, otherwise self
(hence NaN stays NaN). -/
def fClamp (x lo hi : F32) : F32 := if fLt x lo then lo else if fLt hi x then hi else x

/-- Truncation of an exact rational toward zero (the rounding used by Rust
numeric casts). -/
def ratTrunc (q : ℚ) : Int := Int.tdiv q.num (q.den : Int)

/-- Rust `as i32` cast from f32: truncate toward zero, saturate at the i32
range, NaN maps to 0. -/
def fToI32 : F32 → Int
  | nan => 0
  | inf => 2147483647
  | ninf => -2147483648
  | val q => max (-2147483648) (min 2147483647 (ratTrunc q))

/-- Rust `as u8` cast from f32: truncate toward zero, saturate at [0, 255],
NaN maps to 0. -/
def fToU8 : F32 → Fin 256
  | nan => (0 : Fin 256)
  | inf => (255 : Fin 256)
  | ninf => (0 : Fin 256)
  | val q => ⟨(max 0 (min 255 (ratTrunc q))).toNat, by
      have h1 : min 255 (ratTrunc q) ≤ 255 := min_le_left _ _
      omega⟩

/-- f32 floor. -/
def fFloor : F32 → F32
  | nan => nan
  | inf => inf
  | ninf => ninf
  | val q => val (⌊q⌋ : ℚ)

/-- Embedding of a u32 quantity (e.g. framebuffer width) as an f32 value;
the conversion is exact in the idealized model. -/
def natToF (n : Nat) : F32 := val (n : ℚ)

/-- Embedding of an i32 quantity as an f32 value (exact in the idealized
model). -/
def intToF (n : Int) : F32 := val (n : ℚ)

end F32

open F32

/-- Rust `as u32` cast of an i32 value: wrap modulo 2^32. -/
def toU32 (n : Int) : Nat := (n % 4294967296).toNat

/-- Rust u32 → i32 cast: two's complement reinterpretation. -/
def u32ToI32 (n : Nat) : Int :=
  if n < 2147483648 then (n : Int) else (n : Int) - 4294967296

/-- i32 wrapping into the two's complement range. -/
def wrap32 (n : Int) : Int := (n + 2147483648) % 4294967296 - 2147483648

/-- i32 wrapping multiplication. -/
def wmul (a b : Int) : Int := wrap32 (a * b)

/-- i32 wrapping addition. -/
def wadd (a b : Int) : Int := wrap32 (a + b)

/-- i32 bitwise xor, computed on the unsigned reinterpretations. -/
def xor32 (a b : Int) : Int := u32ToI32 (Nat.xor (toU32 a) (toU32 b))

/-- i32 bitwise and with the mask 0xFFFF (the result is non-negative). -/
def land16 (a : Int) : Int := (Nat.land (toU32 a) 65535 : Int)

/-! ## Colors and vectors (raylib types used by the source) -/

/-- raylib RGBA8 color. -/
structure Color where
  r : Fin 256
  g : Fin 256
  b : Fin 256
  a : Fin 256
deriving DecidableEq, Repr

/-- Embeds a u8 color channel as an f32 value (the `as f32` cast, exact). -/
def cf (c : Fin 256) : F32 := F32.val (c.val : ℚ)

/-- raylib Vector3 over the f32 model (named Vec3 since Mathlib already declares Vector3). -/
structure Vec3 where
  x : F32
  y : F32
  z : F32
deriving DecidableEq, Repr

/-- raylib Vector2 over the f32 model. -/
structure Vec2 where
  x : F32
  y : F32
deriving DecidableEq, Repr

/-- Componentwise vector subtraction, used for the edge vectors
Vec3::new(v1.x - v0.x, v1.y - v0.y, v1.z - v0.z). -/
def vSub (a b : Vec3) : Vec3 := ⟨fSub a.x b.x, fSub a.y b.y, fSub a.z b.z⟩

/-- Componentwise vector addition (raylib Add for Vec3). -/
def vAdd (a b : Vec3) : Vec3 := ⟨fAdd a.x b.x, fAdd a.y b.y, fAdd a.z b.z⟩

/-- Scalar multiplication (raylib Mul of Vec3 by f32). -/
def vScale (a : Vec3) (s : F32) : Vec3 := ⟨fMul a.x s, fMul a.y s, fMul a.z s⟩

/-- raylib Vec3 cross product. -/
def vCross (a b : Vec3) : Vec3 :=
  ⟨fSub (fMul a.y b.z) (fMul a.z b.y),
   fSub (fMul a.z b.x) (fMul a.x b.z),
   fSub (fMul a.x b.y) (fMul a.y b.x)⟩

/-- raylib Vec3 dot product. -/
def vDot (a b : Vec3) : F32 :=
  fAdd (fAdd (fMul a.x b.x) (fMul a.y b.y)) (fMul a.z b.z)

/-- Irrational f32 primitives that have no exact rational embedding
(sqrt, sin, cos, powf).  The rasterizer and shader code is parametrized over
them; the two recorded properties of sqrt (sqrt 0 = 0 and sqrt of a positive
value is positive) are the only facts about them any source branch condition
depends on, and both hold for IEEE sqrtf. -/
structure Ops where
  sqrt : F32 → F32
  sin : F32 → F32
  cos : F32 → F32
  powf : F32 → F32 → F32
  sqrt_zero : sqrt (F32.val 0) = F32.val 0
  sqrt_pos : ∀ q : ℚ, 0 < q → ∃ r : ℚ, 0 < r ∧ sqrt (F32.val q) = F32.val r

/-- raylib Vec3 length: sqrt of the sum of squared components. -/
def vLength (ops : Ops) (v : Vec3) : F32 :=
  ops.sqrt (fAdd (fAdd (fMul v.x v.x) (fMul v.y v.y)) (fMul v.z v.z))

/-- raylib-rs Vec3 normalize: divide by the length, with the guard that a
zero length is replaced by 1 (so the zero vector normalizes to itself). -/
def vNormalized (ops : Ops) (v : Vec3) : Vec3 :=
  let length := vLength ops v
  let length2 := if length = F32.val 0 then F32.val 1 else length
  let ilength := fDiv (F32.val 1) length2
  ⟨fMul v.x ilength, fMul v.y ilength, fMul v.z ilength⟩

/-! ## Framebuffer (src/src/framebuffer.rs)

The Image color buffer is modelled as a total function from integer pixel
coordinates to colors, and the z-buffer Vec as a total function from the
usize index to f32 values; writes are functional updates at the written key,
which is the observable behavior of the in-bounds accesses the code makes. -/

/-- Framebuffer with color buffer, z-buffer, and the two color registers
(the GPU Texture2D field is display-layer state and is omitted). -/
structure Framebuffer where
  width : Nat
  height : Nat
  color_buffer : Int × Int → Color
  z_buffer : Nat → F32
  background_color : Color
  current_color : Color

/-- The z-buffer index (y as u32 * width + x as u32) as usize, with u32
wrapping arithmetic. -/
def pixIdx (width : Nat) (x y : Int) : Nat :=
  (toU32 y * width + toU32 x) % 4294967296

namespace Framebuffer

/-- Framebuffer::new: color raster filled with the background color, z-buffer
of length width * height filled with +infinity. -/
def new (width height : Nat) (background_color : Color) : Framebuffer :=
  { width := width
    height := height
    color_buffer := fun _ => background_color
    z_buffer := fun _ => F32.inf
    background_color := background_color
    current_color := ⟨255, 255, 255, 255⟩ }

/-- Framebuffer::clear: reset the color raster to the background color and the
z-buffer to +infinity. -/
def clear (fb : Framebuffer) : Framebuffer :=
  { fb with
    color_buffer := fun _ => fb.background_color
    z_buffer := fun _ => F32.inf }

/-- Framebuffer::set_pixel_with_color: bounds-checked unconditional color
write (the width and height comparisons are i32 comparisons against the
u32-to-i32 casts of the dimensions). -/
def set_pixel_with_color (fb : Framebuffer) (x y : Int) (color : Color) : Framebuffer :=
  if 0 ≤ x ∧ 0 ≤ y ∧ x < u32ToI32 fb.width ∧ y < u32ToI32 fb.height then
    { fb with color_buffer := fun p => if p = (x, y) then color else fb.color_buffer p }
  else fb

/-- Framebuffer::set_pixel_depth: bounds-checked depth-tested write of the
current color; writes color and depth only when depth < z_buffer[idx]. -/
def set_pixel_depth (fb : Framebuffer) (x y : Int) (depth : F32) : Framebuffer :=
  if 0 ≤ x ∧ 0 ≤ y ∧ x < u32ToI32 fb.width ∧ y < u32ToI32 fb.height then
    let idx := pixIdx fb.width x y
    if fLt depth (fb.z_buffer idx) then
      let fb2 := { fb with z_buffer := fun i => if i = idx then depth else fb.z_buffer i }
      { fb2 with color_buffer := fun p => if p = (x, y) then fb.current_color else fb.color_buffer p }
    else fb
  else fb

end Framebuffer

/-! ## Shading library (src/src/shader.rs)

Only the functions reachable from the rasterizer dispatch are embedded
(roca, gas and their helpers); the unused materials marciano, panqueques and
arcoiris are omitted.  Decimal f32 literals are written as exact rationals. -/

/-- shader.rs hash_to_float: i32 wrapping hash of lattice coordinates masked
to 16 bits and normalized to [0, 1]. -/
def hash_to_float (x y : Int) : F32 :=
  fDiv (F32.val (land16 (wadd (xor32 (wmul x 374761393) (wmul y 668265263)) 1274126177) : ℚ))
    (fv 65535)

/-- shader.rs fade: quintic smoothing t*t*t*(t*(t*6 - 15) + 10). -/
def fade (t : F32) : F32 :=
  fMul (fMul (fMul t t) t) (fAdd (fMul t (fSub (fMul t (fv 6)) (fv 15))) (fv 10))

/-- shader.rs lerp_f32: a + (b - a) * t. -/
def lerp_f32 (a b t : F32) : F32 := fAdd a (fMul (fSub b a) t)

/-- shader.rs noise2d: bilinear blend of four lattice hashes with quintic
smoothing, remapped to [-1, 1]. -/
def noise2d (x y : F32) : F32 :=
  let xi := fToI32 (fFloor x)
  let yi := fToI32 (fFloor y)
  let xf := fSub x (fFloor x)
  let yf := fSub y (fFloor y)
  let v00 := hash_to_float xi yi
  let v10 := hash_to_float (xi + 1) yi
  let v01 := hash_to_float xi (yi + 1)
  let v11 := hash_to_float (xi + 1) (yi + 1)
  fSub (fMul (lerp_f32 (lerp_f32 v00 v10 (fade xf)) (lerp_f32 v01 v11 (fade xf)) (fade yf)) (fv 2))
    (fv 1)

/-- The accumulation loop of shader.rs fbm_noise: per octave,
sum += noise2d(x*freq, y*freq) * amp; maxv += amp; amp *= 0.5; freq *= 2.
Returns the final (sum, maxv). -/
def fbmLoop (x y : F32) : Nat → F32 → F32 → F32 → F32 → F32 × F32
  | 0, sum, _, _, maxv => (sum, maxv)
  | n + 1, sum, amp, freq, maxv =>
      fbmLoop x y n (fAdd sum (fMul (noise2d (fMul x freq) (fMul y freq)) amp))
        (fMul amp (fv (1/2))) (fMul freq (fv 2)) (fAdd maxv amp)

/-- shader.rs fbm_noise: octaves of value noise normalized by the total
amplitude and remapped to [0, 1] via ((sum / maxv) + 1) * 0.5. -/
def fbm_noise (x y : F32) (oct : Nat) : F32 :=
  let p := fbmLoop x y oct (fv 0) (fv 1) (fv 1) (fv 0)
  fMul (fAdd (fDiv p.1 p.2) (fv 1)) (fv (1/2))

/-- shader.rs smoothstep. -/
def smoothstep (a b x : F32) : F32 :=
  let t := fClamp (fDiv (fSub x a) (fSub b a)) (fv 0) (fv 1)
  fMul (fMul t t) (fSub (fv 3) (fMul (fv 2) t))

/-- shader.rs ridge: (1 - (2*(x - 0.5)).abs()).max(0). -/
def ridge (x : F32) : F32 :=
  fMax (fSub (fv 1) (fAbs (fMul (fv 2) (fSub x (fv (1/2)))))) (fv 0)

/-- shader.rs fresnel: (1 - view.dot(normal).clamp(0,1)).powf(power). -/
def fresnel (ops : Ops) (normal : Vec3) (view_dir : Vec3) (power : F32) : F32 :=
  let vdotn := fClamp (vDot view_dir normal) (fv 0) (fv 1)
  ops.powf (fSub (fv 1) vdotn) power

/-- shader.rs lerp_color: channelwise linear interpolation with the parameter
clamped to [0,1]; alpha of the result is the constant 255. -/
def lerp_color (a b : Color) (t : F32) : Color :=
  let t2 := fClamp t (fv 0) (fv 1)
  ⟨fToU8 (fAdd (fMul (cf a.r) (fSub (fv 1) t2)) (fMul (cf b.r) t2)),
   fToU8 (fAdd (fMul (cf a.g) (fSub (fv 1) t2)) (fMul (cf b.g) t2)),
   fToU8 (fAdd (fMul (cf a.b) (fSub (fv 1) t2)) (fMul (cf b.b) t2)),
   255⟩

/-- shader.rs blend_colors: straight-alpha blend of top over base with the
alpha clamped to [0,1]; alpha of the result is the constant 255. -/
def blend_colors (base top : Color) (alpha : F32) : Color :=
  let a := fClamp alpha (fv 0) (fv 1)
  ⟨fToU8 (fAdd (fMul (cf base.r) (fSub (fv 1) a)) (fMul (cf top.r) a)),
   fToU8 (fAdd (fMul (cf base.g) (fSub (fv 1) a)) (fMul (cf top.g) a)),
   fToU8 (fAdd (fMul (cf base.b) (fSub (fv 1) a)) (fMul (cf top.b) a)),
   255⟩

/-- shader.rs apply_brightness: scale RGB by b, clamp to [0,255], keep the
incoming alpha. -/
def apply_brightness (c : Color) (b : F32) : Color :=
  ⟨fToU8 (fClamp (fMul (cf c.r) b) (fv 0) (fv 255)),
   fToU8 (fClamp (fMul (cf c.g) b) (fv 0) (fv 255)),
   fToU8 (fClamp (fMul (cf c.b) b) (fv 0) (fv 255)),
   c.a⟩

/-- shader.rs blend_layered: blend each (color, weight) layer over the base
with weights normalized by the total positive weight; unchanged base when the
total weight is not positive. -/
def blend_layered (base : Color) (layers : List (Color × F32)) : Color :=
  let total_weight := layers.foldl (fun acc l => fAdd acc (fMax l.2 (fv 0))) (fv 0)
  if fLe total_weight (fv 0) then base
  else layers.foldl
    (fun b l => blend_colors b l.1 (fClamp (fDiv l.2 total_weight) (fv 0) (fv 1))) base

/-- shader.rs apply_emissive: additive emissive clamped to [0,255]; alpha of
the result is the constant 255. -/
def apply_emissive (base emissive : Color) (strength : F32) : Color :=
  ⟨fToU8 (fClamp (fAdd (cf base.r) (fMul (cf emissive.r) strength)) (fv 0) (fv 255)),
   fToU8 (fClamp (fAdd (cf base.g) (fMul (cf emissive.g) strength)) (fv 0) (fv 255)),
   fToU8 (fClamp (fAdd (cf base.b) (fMul (cf emissive.b) strength)) (fv 0) (fv 255)),
   255⟩

/-- shader.rs ring_mask. -/
def ring_mask (ops : Ops) (pos : Vec3) (inner outer tilt : F32) : F32 :=
  let x := pos.x
  let z := fSub (fMul pos.z (ops.cos tilt)) (fMul pos.y (ops.sin tilt))
  let r := ops.sqrt (fAdd (fMul x x) (fMul z z))
  fMul (smoothstep inner outer r)
    (fSub (fv 1) (smoothstep (fAdd inner (fv (1/100))) (fSub outer (fv (1/100))) r))

/-- shader.rs apply_atmosphere: rim plus altitude haze blended over the color;
the final operation is a blend_colors, so the alpha is 255. -/
def apply_atmosphere (ops : Ops) (color : Color) (pos normal : Vec3) (time : F32) : Color :=
  let view_dir : Vec3 := ⟨fv 0, fv 0, fv 1⟩
  let rim := fresnel ops normal view_dir (fv (5/2))
  let altitude := fClamp (fSub (fv 1) (vLength ops pos)) (fv 0) (fv 1)
  let haze := ops.powf (fAdd (fMul rim (fv (3/5))) (fMul altitude (fv (2/5)))) (fv (3/2))
  let haze_color : Color := ⟨180, 210, 255, 255⟩
  blend_colors color haze_color
    (fAdd (fMul haze (fv (3/20))) (fMul (fAbs (ops.sin (fMul time (fv (1/10))))) (fv (1/20))))

/-- shader.rs perturb_normal: finite-difference fBm gradient added as a
tangent offset, then renormalized. -/
def perturb_normal (ops : Ops) (n pos : Vec3) (scale : F32) : Vec3 :=
  let eps := fv (1/1000)
  let nx := fSub (fbm_noise (fMul (fAdd pos.x eps) (fv 6)) (fMul pos.z (fv 6)) 3)
    (fbm_noise (fMul (fSub pos.x eps) (fv 6)) (fMul pos.z (fv 6)) 3)
  let nz := fSub (fbm_noise (fMul pos.x (fv 6)) (fMul (fAdd pos.z eps) (fv 6)) 3)
    (fbm_noise (fMul pos.x (fv 6)) (fMul (fSub pos.z eps) (fv 6)) 3)
  let tangent := vScale ⟨nx, fv 0, nz⟩ scale
  vNormalized ops (vAdd n tangent)

/-- shader.rs shading: Lambert with ambient floor, Blinn-Phong specular blend,
rim light blend; the final operation is a blend_colors, so the alpha is 255. -/
def shading (ops : Ops) (base : Color) (normal light_dir : Vec3)
    (shininess specular_strength : F32) : Color :=
  let ndotl := fMax (vDot normal light_dir) (fv 0)
  let ambient := fv (2/25)
  let lit := apply_brightness base (fAdd ambient (fMul ndotl (fSub (fv 1) ambient)))
  let view : Vec3 := ⟨fv 0, fv 0, fv 1⟩
  let half2 := vNormalized ops (vAdd light_dir view)
  let spec := fMul (ops.powf (fMax (vDot normal half2) (fv 0)) shininess) specular_strength
  let lit2 := blend_colors lit ⟨255, 255, 255, 255⟩ spec
  let rim := fSub (fv 1) (fClamp (vDot view normal) (fv 0) (fv 1))
  let rim_strength := fMul (ops.powf rim (fv 2)) (fv (3/25))
  blend_colors lit2 ⟨255, 240, 210, 255⟩ rim_strength

/-- shader.rs roca: four noise layers over a latitude gradient, cracks,
lava emissive, perturbed-normal lighting, atmosphere. -/
def roca (ops : Ops) (pos normal : Vec3) (time : F32) : Color :=
  let latitude := fAdd (fMul (fClamp pos.y (fv (-1)) (fv 1)) (fv (1/2))) (fv (1/2))
  let base_col := lerp_color ⟨40, 30, 25, 255⟩ ⟨210, 170, 120, 255⟩ latitude
  let relief := fbm_noise (fMul pos.x (fv 8)) (fAdd (fMul pos.z (fv 8)) (fMul time (fv (1/50)))) 5
  let veins := ops.powf (fbm_noise (fMul pos.x (fv 24)) (fMul pos.z (fv 24)) 4) (fv (6/5))
  let rust := ops.powf (fbm_noise (fMul pos.x (fv 10)) (fMul pos.z (fv 10)) 3) (fv (14/5))
  let moss := fMul (smoothstep (fv (3/10)) (fv (4/5)) relief) (fSub (fv 1) latitude)
  let layer0 := (lerp_color ⟨90, 60, 50, 255⟩ ⟨240, 210, 180, 255⟩ (ops.powf relief (fv (8/5))), fv (1/2))
  let layer1 := (blend_colors ⟨255, 230, 200, 255⟩ ⟨190, 80, 40, 255⟩ veins, fv (1/4))
  let layer2 := ((⟨60, 100, 70, 255⟩ : Color), fMul moss (fv (4/5)))
  let lava_noise := fbm_noise (fMul pos.x (fv 6)) (fAdd (fMul pos.z (fv 6)) (fMul time (fv (3/25)))) 4
  let lava_mask := fMul (ops.powf (ridge lava_noise) (fv 2)) (fMax (fSub (fv 1) latitude) (fv 0))
  let lava_color : Color := ⟨255, 120, 40, 255⟩
  let layer3 := (lava_color, fMul lava_mask (fv (4/5)))
  let col := blend_layered base_col [layer0, layer1, layer2, layer3]
  let cracks := ops.powf (fbm_noise (fMul pos.x (fv 30)) (fMul pos.z (fv 30)) 4) (fv (9/5))
  let col2 := blend_colors col ⟨30, 20, 18, 255⟩ (fMul cracks (fv (1/4)))
  let emissive_strength := fClamp (fMul lava_mask (fv 2)) (fv 0) (fv (3/2))
  let col3 := apply_emissive col2 ⟨255, 80, 30, 255⟩ emissive_strength
  let pert := perturb_normal ops normal pos (fv 1)
  let light_dir := vNormalized ops ⟨fv (3/5), fv (4/5), fv (1/2)⟩
  let shaded := shading ops col3 pert light_dir (fv 64) (fv (1/2))
  let _ := rust
  apply_atmosphere ops shaded pos normal time

/-- shader.rs gas: radial gradient, two band layers, swirls, haze, ring mask,
equatorial glow, soft lighting, atmosphere. -/
def gas (ops : Ops) (pos normal : Vec3) (time : F32) : Color :=
  let r := fClamp (vLength ops pos) (fv 0) (fv 1)
  let gradient := ops.powf (fSub (fv 1) r) (fv (1/2))
  let base_col := lerp_color ⟨10, 20, 60, 255⟩ ⟨220, 200, 160, 255⟩ gradient
  let band_noise := fbm_noise (fAdd (fMul pos.y (fv 3)) (fMul time (fv (2/25)))) (fMul pos.x (fv 3)) 6
  let bands_a := ops.powf (fAdd (fMul (ops.sin (fAdd (fMul pos.y (fv 10)) (fMul band_noise (fv 4)))) (fv (1/2))) (fv (1/2))) (fv (8/5))
  let band_col_a := lerp_color ⟨255, 180, 90, 255⟩ ⟨180, 230, 255, 255⟩ band_noise
  let band_noise2 := fbm_noise (fSub (fMul pos.y (fv 6)) (fMul time (fv (3/25)))) (fMul pos.z (fv 2)) 5
  let bands_b := ops.powf (fAdd (fMul (ops.cos (fAdd (fMul pos.y (fv 6)) (fMul band_noise2 (fv 2)))) (fv (1/2))) (fv (1/2))) (fv (13/10))
  let band_col_b := lerp_color ⟨120, 80, 200, 255⟩ ⟨240, 220, 200, 255⟩ band_noise2
  let swirl := ops.powf (fbm_noise (fAdd (fMul pos.x (fv 12)) (fMul time (fv (2/5)))) (fMul pos.z (fv 12)) 5) (fv (13/10))
  let swirl_col : Color := ⟨255, 245, 210, 255⟩
  let haze_layer := fMul (ops.powf (fSub (fv 1) r) (fv 2)) (fv (1/4))
  let layers := [(band_col_a, fMul bands_a (fv (9/10))), (band_col_b, fMul bands_b (fv (1/2))),
    (swirl_col, fMul swirl (fv (2/5))), ((⟨180, 210, 255, 255⟩ : Color), haze_layer)]
  let col := blend_layered base_col layers
  let ring_alpha := ring_mask ops pos (fv (21/20)) (fv (27/20))
    (fAdd (fMul (fAbs (ops.sin (fAdd (fMul time (fv (3/100))) (fv (3/10))))) (fv (3/10))) (fv (7/10)))
  let col2 := if fLt (fv (1/10000)) ring_alpha then
      let ring_noise := fbm_noise (fAdd (fMul pos.x (fv 80)) (fMul time (fv (3/5)))) (fMul pos.z (fv 60)) 4
      let ring_base := lerp_color ⟨220, 200, 170, 255⟩ ⟨120, 100, 80, 255⟩ ring_noise
      blend_colors col ring_base (fMul ring_alpha (fv (17/20)))
    else col
  let col3 := blend_colors col2 ⟨255, 255, 240, 255⟩
    (fMul (ops.powf (fSub (fv 1) (fAbs pos.y)) (fv 6)) (fv (3/50)))
  let pert := perturb_normal ops normal pos (fv (9/50))
  let shaded := shading ops col3 pert (vNormalized ops ⟨fv (2/5), fv (4/5), fv (9/10)⟩) (fv 20) (fv (9/50))
  apply_atmosphere ops shaded pos normal time

/-- Modelled from the spec: src/src/triangle.rs imports a crystalline material
function cristal from the shader module, but src/src/shader.rs does not define
it.  Per spec section 4.3 a material composes noise-derived color layers with
the layered composite, an optional emissive or atmospheric adjustment, and the
lighting model. -/
def cristal (ops : Ops) (pos normal : Vec3) (time : F32) : Color :=
  let n := fbm_noise (fMul pos.x (fv 12)) (fMul pos.z (fv 12)) 4
  let base_col := lerp_color ⟨60, 120, 200, 255⟩ ⟨200, 240, 255, 255⟩ n
  let col := blend_layered base_col [((⟨255, 255, 255, 255⟩ : Color), smoothstep (fv (4/5)) (fv 1) n)]
  let shaded := shading ops col (perturb_normal ops normal pos (fv (1/2)))
    (vNormalized ops ⟨fv (1/2), fv (4/5), fv (2/5)⟩) (fv 48) (fv (1/2))
  apply_atmosphere ops shaded pos normal time

/-- Modelled from the spec: src/src/triangle.rs imports a molten material
function lava from the shader module, but src/src/shader.rs does not define
it.  Per spec section 4.3 it composes noise layers, an emissive adjustment and
the lighting model. -/
def lava (ops : Ops) (pos normal : Vec3) (time : F32) : Color :=
  let n := fbm_noise (fMul pos.x (fv 5)) (fAdd (fMul pos.z (fv 5)) (fMul time (fv (1/10)))) 4
  let base_col := lerp_color ⟨80, 10, 5, 255⟩ ⟨255, 140, 30, 255⟩ n
  let col := apply_emissive base_col ⟨255, 90, 20, 255⟩ (ridge n)
  let shaded := shading ops col (perturb_normal ops normal pos (fv (3/5)))
    (vNormalized ops ⟨fv (1/2), fv (4/5), fv (2/5)⟩) (fv 24) (fv (3/10))
  apply_atmosphere ops shaded pos normal time

/-- Modelled from the spec: src/src/triangle.rs imports an icy material
function hielo from the shader module, but src/src/shader.rs does not define
it.  Per spec section 4.3 it composes noise layers with the layered composite
and the lighting model. -/
def hielo (ops : Ops) (pos normal : Vec3) (time : F32) : Color :=
  let n := fbm_noise (fMul pos.x (fv 9)) (fMul pos.z (fv 9)) 4
  let base_col := lerp_color ⟨150, 200, 255, 255⟩ ⟨240, 250, 255, 255⟩ n
  let col := blend_layered base_col [((⟨255, 255, 255, 255⟩ : Color), smoothstep (fv (7/10)) (fv 1) n)]
  let shaded := shading ops col (perturb_normal ops normal pos (fv (1/4)))
    (vNormalized ops ⟨fv (1/2), fv (4/5), fv (2/5)⟩) (fv 32) (fv (2/5))
  apply_atmosphere ops shaded pos normal time

/-- triangle.rs ShaderType. -/
inductive ShaderType where
  | Rocky
  | Gas
  | Crystal
  | Lava
  | Ice
deriving DecidableEq, Repr

/-- The shader dispatch of draw_filled_triangle (the match on shader_type in
triangle.rs lines 82-88). -/
def shaderOf (ops : Ops) : ShaderType → (Vec3 → Vec3 → F32 → Color)
  | ShaderType.Rocky => roca ops
  | ShaderType.Gas => gas ops
  | ShaderType.Crystal => cristal ops
  | ShaderType.Lava => lava ops
  | ShaderType.Ice => hielo ops

/-- A concrete instance of the irrational primitives, used to build witnesses;
the sqrt field keeps the sign behavior recorded in Ops. -/
def defaultOps : Ops where
  sqrt := fun f => match f with
    | F32.val q => if q < 0 then F32.nan else F32.val q
    | F32.nan => F32.nan
    | F32.inf => F32.inf
    | F32.ninf => F32.nan
  sin := fun _ => F32.val 0
  cos := fun _ => F32.val 0
  powf := fun x _ => x
  sqrt_zero := by norm_num
  sqrt_pos := fun q hq => ⟨q, hq, by simp only []; rw [if_neg (not_lt.mpr hq.le)]⟩

/-! ## Rasterizer (src/src/triangle.rs)

draw_filled_triangle is decomposed into named pieces (projection, face
normal, bounding box, barycentric weights, coverage, depth, per-pixel write);
each mirrors the corresponding lines of the source, with the pixel loop
expressed as a fold over the row-major list of bounding-box pixels. -/

/-- triangle.rs project: fov = 1 / (v.z + 3);
x = width/2 + v.x * scale * fov * width / 2;
y = height/2 - v.y * scale * fov * height / 2. -/
def project (v : Vec3) (width height scale : F32) : Vec2 :=
  let fov := fDiv (fv 1) (fAdd v.z (fv 3))
  ⟨fAdd (fDiv width (fv 2)) (fDiv (fMul (fMul (fMul v.x scale) fov) width) (fv 2)),
   fSub (fDiv height (fv 2)) (fDiv (fMul (fMul (fMul v.y scale) fov) height) (fv 2))⟩

/-- The projected point of a vertex for a framebuffer of the given
dimensions (draw_filled_triangle uses scale = 1.0). -/
def projPt (W H : Nat) (v : Vec3) : Vec2 := project v (natToF W) (natToF H) (fv 1)

/-- The face normal: normalized cross product of the two edge vectors from
v0 (triangle.rs lines 33-35). -/
def faceNormal (ops : Ops) (v0 v1 v2 : Vec3) : Vec3 :=
  vNormalized ops (vCross (vSub v1 v0) (vSub v2 v0))

/-- The edge-function denominator
(p1.y - p2.y)*(p0.x - p2.x) + (p2.x - p1.x)*(p0.y - p2.y). -/
def denomOf (p0 p1 p2 : Vec2) : F32 :=
  fAdd (fMul (fSub p1.y p2.y) (fSub p0.x p2.x)) (fMul (fSub p2.x p1.x) (fSub p0.y p2.y))

/-- min_x = p0.x.min(p1.x).min(p2.x).max(0.0) as i32. -/
def bbMinX (p0 p1 p2 : Vec2) : Int := fToI32 (fMax (fMin (fMin p0.x p1.x) p2.x) (fv 0))

/-- max_x = p0.x.max(p1.x).max(p2.x).min(width - 1.0) as i32. -/
def bbMaxX (W : Nat) (p0 p1 p2 : Vec2) : Int :=
  fToI32 (fMin (fMax (fMax p0.x p1.x) p2.x) (fSub (natToF W) (fv 1)))

/-- min_y = p0.y.min(p1.y).min(p2.y).max(0.0) as i32. -/
def bbMinY (p0 p1 p2 : Vec2) : Int := fToI32 (fMax (fMin (fMin p0.y p1.y) p2.y) (fv 0))

/-- max_y = p0.y.max(p1.y).max(p2.y).min(height - 1.0) as i32. -/
def bbMaxY (H : Nat) (p0 p1 p2 : Vec2) : Int :=
  fToI32 (fMin (fMax (fMax p0.y p1.y) p2.y) (fSub (natToF H) (fv 1)))

/-- The inclusive integer range lo..=hi as a list. -/
def intRange (lo hi : Int) : List Int :=
  (List.range (hi + 1 - lo).toNat).map (fun (n : Nat) => lo + (n : Int))

/-- The pixels visited by the nested loops for y in min_y..=max_y,
for x in min_x..=max_x, as (x, y) pairs in visit order. -/
def pixList (mnx mxx mny mxy : Int) : List (Int × Int) :=
  (intRange mny mxy).flatMap (fun y => (intRange mnx mxx).map (fun x => (x, y)))

/-- The sampled pixel center coordinate x as f32 + 0.5. -/
def pxCenter (x : Int) : F32 := fAdd (intToF x) (fv (1/2))

/-- Barycentric weight w0 at the center of pixel (x, y). -/
def w0At (p0 p1 p2 : Vec2) (denom : F32) (x y : Int) : F32 :=
  let px := pxCenter x
  let py := pxCenter y
  fDiv (fAdd (fMul (fSub p1.y p2.y) (fSub px p2.x)) (fMul (fSub p2.x p1.x) (fSub py p2.y))) denom

/-- Barycentric weight w1 at the center of pixel (x, y). -/
def w1At (p0 p1 p2 : Vec2) (denom : F32) (x y : Int) : F32 :=
  let px := pxCenter x
  let py := pxCenter y
  fDiv (fAdd (fMul (fSub p2.y p0.y) (fSub px p2.x)) (fMul (fSub p0.x p2.x) (fSub py p2.y))) denom

/-- Barycentric weight w2 = 1 - w0 - w1. -/
def w2At (p0 p1 p2 : Vec2) (denom : F32) (x y : Int) : F32 :=
  fSub (fSub (fv 1) (w0At p0 p1 p2 denom x y)) (w1At p0 p1 p2 denom x y)

/-- The coverage epsilon EPSILON = -0.0001 of triangle.rs. -/
def epsilonF : F32 := fv (-1/10000)

/-- The coverage test w0 >= EPSILON && w1 >= EPSILON && w2 >= EPSILON. -/
def coverageAt (p0 p1 p2 : Vec2) (denom : F32) (x y : Int) : Bool :=
  fGe (w0At p0 p1 p2 denom x y) epsilonF && fGe (w1At p0 p1 p2 denom x y) epsilonF &&
    fGe (w2At p0 p1 p2 denom x y) epsilonF

/-- The inverse-z weight 1 / (v.z + 1e-6) of a vertex. -/
def izOf (v : Vec3) : F32 := fDiv (fv 1) (fAdd v.z (fv (1/1000000)))

/-- The interpolated inverse depth iz = w0*iz0 + w1*iz1 + w2*iz2. -/
def izAt (v0 v1 v2 : Vec3) (p0 p1 p2 : Vec2) (denom : F32) (x y : Int) : F32 :=
  fAdd (fAdd (fMul (w0At p0 p1 p2 denom x y) (izOf v0)) (fMul (w1At p0 p1 p2 denom x y) (izOf v1)))
    (fMul (w2At p0 p1 p2 denom x y) (izOf v2))

/-- The interpolated fragment depth 1 / iz. -/
def depthAt (v0 v1 v2 : Vec3) (p0 p1 p2 : Vec2) (denom : F32) (x y : Int) : F32 :=
  fDiv (fv 1) (izAt v0 v1 v2 p0 p1 p2 denom x y)

/-- The perspective-correct interpolated world position
(w0*a0*iz0 + w1*a1*iz1 + w2*a2*iz2) / iz per component. -/
def posAt (v0 v1 v2 : Vec3) (p0 p1 p2 : Vec2) (denom : F32) (x y : Int) : Vec3 :=
  let w0 := w0At p0 p1 p2 denom x y
  let w1 := w1At p0 p1 p2 denom x y
  let w2 := w2At p0 p1 p2 denom x y
  let iz0 := izOf v0
  let iz1 := izOf v1
  let iz2 := izOf v2
  let iz := izAt v0 v1 v2 p0 p1 p2 denom x y
  ⟨fDiv (fAdd (fAdd (fMul (fMul w0 v0.x) iz0) (fMul (fMul w1 v1.x) iz1)) (fMul (fMul w2 v2.x) iz2)) iz,
   fDiv (fAdd (fAdd (fMul (fMul w0 v0.y) iz0) (fMul (fMul w1 v1.y) iz1)) (fMul (fMul w2 v2.y) iz2)) iz,
   fDiv (fAdd (fAdd (fMul (fMul w0 v0.z) iz0) (fMul (fMul w1 v1.z) iz1)) (fMul (fMul w2 v2.z) iz2)) iz⟩

/-- The inline per-pixel write sequence of draw_filled_triangle (triangle.rs
lines 71-89): read z_buffer[idx], and when depth < z_buffer[idx] store the
depth and write the shaded color through set_pixel_with_color. -/
def rasterWrite (fb : Framebuffer) (x y : Int) (depth : F32) (color : Color) : Framebuffer :=
  let idx := pixIdx fb.width x y
  if fLt depth (fb.z_buffer idx) then
    Framebuffer.set_pixel_with_color
      { fb with z_buffer := fun i => if i = idx then depth else fb.z_buffer i } x y color
  else fb

/-- One iteration of the rasterizer pixel loop: coverage test, then the
depth-tested write of the shaded color. -/
def pixStep (sh : Vec3 → Vec3 → F32 → Color) (v0 v1 v2 : Vec3) (time : F32) (normal : Vec3)
    (p0 p1 p2 : Vec2) (denom : F32) (fb : Framebuffer) (xy : Int × Int) : Framebuffer :=
  if coverageAt p0 p1 p2 denom xy.1 xy.2 then
    rasterWrite fb xy.1 xy.2 (depthAt v0 v1 v2 p0 p1 p2 denom xy.1 xy.2)
      (sh (posAt v0 v1 v2 p0 p1 p2 denom xy.1 xy.2) normal time)
  else fb

/-- triangle.rs draw_filled_triangle, parametrized by the shader function the
dispatch selects: backface cull on the face normal, degenerate denominator
check, then the pixel loop over the clamped bounding box. -/
def drawRaster (ops : Ops) (sh : Vec3 → Vec3 → F32 → Color) (framebuffer : Framebuffer)
    (v0 v1 v2 : Vec3) (time : F32) : Framebuffer :=
  let p0 := projPt framebuffer.width framebuffer.height v0
  let p1 := projPt framebuffer.width framebuffer.height v1
  let p2 := projPt framebuffer.width framebuffer.height v2
  let normal := faceNormal ops v0 v1 v2
  if fGe normal.z (fv 0) then framebuffer
  else
    let denom := denomOf p0 p1 p2
    if fLt (fAbs denom) (fv (1/1000000)) then framebuffer
    else
      (pixList (bbMinX p0 p1 p2) (bbMaxX framebuffer.width p0 p1 p2) (bbMinY p0 p1 p2)
          (bbMaxY framebuffer.height p0 p1 p2)).foldl
        (pixStep sh v0 v1 v2 time normal p0 p1 p2 denom) framebuffer

/-- triangle.rs draw_filled_triangle with the ShaderType dispatch. -/
def draw_filled_triangle (ops : Ops) (framebuffer : Framebuffer) (v0 v1 v2 : Vec3)
    (shader_type : ShaderType) (time : F32) : Framebuffer :=
  drawRaster ops (shaderOf ops shader_type) framebuffer v0 v1 v2 time

/-- Pixel (x, y) lies in the clamped screen bounding box of the triangle. -/
def inBBoxAt (W H : Nat) (v0 v1 v2 : Vec3) (x y : Int) : Prop :=
  bbMinX (projPt W H v0) (projPt W H v1) (projPt W H v2) ≤ x ∧
  x ≤ bbMaxX W (projPt W H v0) (projPt W H v1) (projPt W H v2) ∧
  bbMinY (projPt W H v0) (projPt W H v1) (projPt W H v2) ≤ y ∧
  y ≤ bbMaxY H (projPt W H v0) (projPt W H v1) (projPt W H v2)

instance (W H : Nat) (v0 v1 v2 : Vec3) (x y : Int) : Decidable (inBBoxAt W H v0 v1 v2 x y) := by
  unfold inBBoxAt; infer_instance

/-- The triangle attempts a depth-tested write at pixel (x, y): it is not
backface culled, not degenerate, and (x, y) is a covered bounding-box pixel. -/
def attemptsAt (ops : Ops) (W H : Nat) (v0 v1 v2 : Vec3) (x y : Int) : Bool :=
  let p0 := projPt W H v0
  let p1 := projPt W H v1
  let p2 := projPt W H v2
  !(fGe (faceNormal ops v0 v1 v2).z (fv 0)) &&
    !(fLt (fAbs (denomOf p0 p1 p2)) (fv (1/1000000))) &&
    decide (inBBoxAt W H v0 v1 v2 x y) &&
    coverageAt p0 p1 p2 (denomOf p0 p1 p2) x y

/-- The interpolated depth of the triangle at pixel (x, y) for a framebuffer
of the given dimensions. -/
def depthAtPix (W H : Nat) (v0 v1 v2 : Vec3) (x y : Int) : F32 :=
  depthAt v0 v1 v2 (projPt W H v0) (projPt W H v1) (projPt W H v2)
    (denomOf (projPt W H v0) (projPt W H v1) (projPt W H v2)) x y

/-- The shaded color of the triangle at pixel (x, y). -/
def colorAtPix (ops : Ops) (sh : Vec3 → Vec3 → F32 → Color) (W H : Nat) (v0 v1 v2 : Vec3)
    (time : F32) (x y : Int) : Color :=
  sh (posAt v0 v1 v2 (projPt W H v0) (projPt W H v1) (projPt W H v2)
      (denomOf (projPt W H v0) (projPt W H v1) (projPt W H v2)) x y)
    (faceNormal ops v0 v1 v2) time

/-- The z-buffer indices draw_filled_triangle reads (and possibly writes):
one index per covered bounding-box pixel, when the triangle is neither culled
nor degenerate. -/
def rasterAccessIndices (ops : Ops) (W H : Nat) (v0 v1 v2 : Vec3) : List Nat :=
  let p0 := projPt W H v0
  let p1 := projPt W H v1
  let p2 := projPt W H v2
  if fGe (faceNormal ops v0 v1 v2).z (fv 0) then []
  else if fLt (fAbs (denomOf p0 p1 p2)) (fv (1/1000000)) then []
  else ((pixList (bbMinX p0 p1 p2) (bbMaxX W p0 p1 p2) (bbMinY p0 p1 p2) (bbMaxY H p0 p1 p2)).filter
      (fun xy => coverageAt p0 p1 p2 (denomOf p0 p1 p2) xy.1 xy.2)).map
    (fun xy => pixIdx W xy.1 xy.2)

/-! ## Basic facts about the f32 model -/

theorem fLt_asymm {a b : F32} (h : fLt a b = true) : fLt b a = false := by
  cases a <;> cases b <;> simp_all [fLt]
  linarith

theorem fLt_trans {a b c : F32} (h1 : fLt a b = true) (h2 : fLt b c = true) :
    fLt a c = true := by
  cases a <;> cases b <;> cases c <;> simp_all [fLt] <;> try linarith

theorem fLt_connex {a b c : F32} (ha : fLt a c = true) (hb : fLt b c = true)
    (hne : a ≠ b) : fLt a b = true ∨ fLt b a = true := by
  cases a <;> cases b <;> cases c <;> simp_all [fLt]
  all_goals exact Ne.lt_or_lt hne

theorem fAdd_nan_right (a : F32) : fAdd a F32.nan = F32.nan := by cases a <;> rfl

theorem fAdd_nan_left (b : F32) : fAdd F32.nan b = F32.nan := by cases b <;> rfl

theorem fNeg_nan : fNeg F32.nan = F32.nan := rfl

theorem fSub_nan_right (a : F32) : fSub a F32.nan = F32.nan := by cases a <;> rfl

theorem fSub_nan_left (b : F32) : fSub F32.nan b = F32.nan := by cases b <;> rfl

theorem fMul_nan_right (a : F32) : fMul a F32.nan = F32.nan := by cases a <;> rfl

theorem fMul_nan_left (b : F32) : fMul F32.nan b = F32.nan := by cases b <;> rfl

theorem fDiv_nan_right (a : F32) : fDiv a F32.nan = F32.nan := by cases a <;> rfl

theorem fDiv_nan_left (b : F32) : fDiv F32.nan b = F32.nan := by cases b <;> rfl

theorem fLt_nan_right (a : F32) : fLt a F32.nan = false := by cases a <;> rfl

theorem fLt_nan_left (b : F32) : fLt F32.nan b = false := by cases b <;> rfl

theorem fGe_nan_left (b : F32) : fGe F32.nan b = false := by cases b <;> rfl

theorem fAbs_nan : fAbs F32.nan = F32.nan := rfl

/-! ## Framebuffer write locality -/

theorem set_pixel_with_color_width (fb : Framebuffer) (x y : Int) (c : Color) :
    (Framebuffer.set_pixel_with_color fb x y c).width = fb.width := by
  unfold Framebuffer.set_pixel_with_color; split <;> rfl

theorem set_pixel_with_color_height (fb : Framebuffer) (x y : Int) (c : Color) :
    (Framebuffer.set_pixel_with_color fb x y c).height = fb.height := by
  unfold Framebuffer.set_pixel_with_color; split <;> rfl

theorem set_pixel_with_color_z (fb : Framebuffer) (x y : Int) (c : Color) :
    (Framebuffer.set_pixel_with_color fb x y c).z_buffer = fb.z_buffer := by
  unfold Framebuffer.set_pixel_with_color; split <;> rfl

theorem set_pixel_with_color_other (fb : Framebuffer) (x y : Int) (c : Color)
    (p : Int × Int) (hp : p ≠ (x, y)) :
    (Framebuffer.set_pixel_with_color fb x y c).color_buffer p = fb.color_buffer p := by
  unfold Framebuffer.set_pixel_with_color
  split
  · simp [hp]
  · rfl

theorem set_pixel_with_color_self (fb : Framebuffer) (x y : Int) (c : Color)
    (hin : 0 ≤ x ∧ 0 ≤ y ∧ x < u32ToI32 fb.width ∧ y < u32ToI32 fb.height) :
    (Framebuffer.set_pixel_with_color fb x y c).color_buffer (x, y) = c := by
  unfold Framebuffer.set_pixel_with_color
  rw [if_pos hin]
  simp

theorem rasterWrite_width (fb : Framebuffer) (x y : Int) (d : F32) (c : Color) :
    (rasterWrite fb x y d c).width = fb.width := by
  simp only [rasterWrite]
  split
  · rw [set_pixel_with_color_width]
  · rfl

theorem rasterWrite_height (fb : Framebuffer) (x y : Int) (d : F32) (c : Color) :
    (rasterWrite fb x y d c).height = fb.height := by
  simp only [rasterWrite]
  split
  · rw [set_pixel_with_color_height]
  · rfl

theorem rasterWrite_z_other (fb : Framebuffer) (x y : Int) (d : F32) (c : Color)
    (i : Nat) (hi : i ≠ pixIdx fb.width x y) :
    (rasterWrite fb x y d c).z_buffer i = fb.z_buffer i := by
  simp only [rasterWrite]
  split
  · rw [set_pixel_with_color_z]; simp [hi]
  · rfl

theorem rasterWrite_color_other (fb : Framebuffer) (x y : Int) (d : F32) (c : Color)
    (p : Int × Int) (hp : p ≠ (x, y)) :
    (rasterWrite fb x y d c).color_buffer p = fb.color_buffer p := by
  simp only [rasterWrite]
  split
  · rw [set_pixel_with_color_other _ _ _ _ _ hp]
  · rfl

theorem rasterWrite_z_self (fb : Framebuffer) (x y : Int) (d : F32) (c : Color) :
    (rasterWrite fb x y d c).z_buffer (pixIdx fb.width x y) =
      if fLt d (fb.z_buffer (pixIdx fb.width x y)) then d else fb.z_buffer (pixIdx fb.width x y) := by
  simp only [rasterWrite]
  split
  · next h => rw [set_pixel_with_color_z]; simp [h]
  · next h => simp [h]

theorem rasterWrite_color_self (fb : Framebuffer) (x y : Int) (d : F32) (c : Color)
    (hin : 0 ≤ x ∧ 0 ≤ y ∧ x < u32ToI32 fb.width ∧ y < u32ToI32 fb.height) :
    (rasterWrite fb x y d c).color_buffer (x, y) =
      if fLt d (fb.z_buffer (pixIdx fb.width x y)) then c else fb.color_buffer (x, y) := by
  simp only [rasterWrite]
  split
  · exact set_pixel_with_color_self _ _ _ _ hin
  · rfl

theorem pixStep_width (sh : Vec3 → Vec3 → F32 → Color) (v0 v1 v2 : Vec3) (time : F32)
    (normal : Vec3) (p0 p1 p2 : Vec2) (denom : F32) (fb : Framebuffer) (xy : Int × Int) :
    (pixStep sh v0 v1 v2 time normal p0 p1 p2 denom fb xy).width = fb.width := by
  simp only [pixStep]
  split
  · rw [rasterWrite_width]
  · rfl

theorem pixStep_height (sh : Vec3 → Vec3 → F32 → Color) (v0 v1 v2 : Vec3) (time : F32)
    (normal : Vec3) (p0 p1 p2 : Vec2) (denom : F32) (fb : Framebuffer) (xy : Int × Int) :
    (pixStep sh v0 v1 v2 time normal p0 p1 p2 denom fb xy).height = fb.height := by
  simp only [pixStep]
  split
  · rw [rasterWrite_height]
  · rfl

theorem foldl_pixStep_width (sh : Vec3 → Vec3 → F32 → Color) (v0 v1 v2 : Vec3) (time : F32)
    (normal : Vec3) (p0 p1 p2 : Vec2) (denom : F32) (l : List (Int × Int)) (fb : Framebuffer) :
    (l.foldl (pixStep sh v0 v1 v2 time normal p0 p1 p2 denom) fb).width = fb.width := by
  induction l generalizing fb with
  | nil => rfl
  | cons hd tl ih => rw [List.foldl_cons, ih, pixStep_width]

theorem foldl_pixStep_height (sh : Vec3 → Vec3 → F32 → Color) (v0 v1 v2 : Vec3) (time : F32)
    (normal : Vec3) (p0 p1 p2 : Vec2) (denom : F32) (l : List (Int × Int)) (fb : Framebuffer) :
    (l.foldl (pixStep sh v0 v1 v2 time normal p0 p1 p2 denom) fb).height = fb.height := by
  induction l generalizing fb with
  | nil => rfl
  | cons hd tl ih => rw [List.foldl_cons, ih, pixStep_height]

theorem drawRaster_width (ops : Ops) (sh : Vec3 → Vec3 → F32 → Color) (fb : Framebuffer)
    (v0 v1 v2 : Vec3) (time : F32) :
    (drawRaster ops sh fb v0 v1 v2 time).width = fb.width := by
  simp only [drawRaster]
  split
  · rfl
  · split
    · rfl
    · rw [foldl_pixStep_width]

theorem drawRaster_height (ops : Ops) (sh : Vec3 → Vec3 → F32 → Color) (fb : Framebuffer)
    (v0 v1 v2 : Vec3) (time : F32) :
    (drawRaster ops sh fb v0 v1 v2 time).height = fb.height := by
  simp only [drawRaster]
  split
  · rfl
  · split
    · rfl
    · rw [foldl_pixStep_height]

theorem pixStep_z_other (sh : Vec3 → Vec3 → F32 → Color) (v0 v1 v2 : Vec3) (time : F32)
    (normal : Vec3) (p0 p1 p2 : Vec2) (denom : F32) (fb : Framebuffer) (xy : Int × Int)
    (i : Nat) (hi : i ≠ pixIdx fb.width xy.1 xy.2) :
    (pixStep sh v0 v1 v2 time normal p0 p1 p2 denom fb xy).z_buffer i = fb.z_buffer i := by
  simp only [pixStep]
  split
  · exact rasterWrite_z_other _ _ _ _ _ _ hi
  · rfl

theorem pixStep_color_other (sh : Vec3 → Vec3 → F32 → Color) (v0 v1 v2 : Vec3) (time : F32)
    (normal : Vec3) (p0 p1 p2 : Vec2) (denom : F32) (fb : Framebuffer) (xy : Int × Int)
    (p : Int × Int) (hp : p ≠ xy) :
    (pixStep sh v0 v1 v2 time normal p0 p1 p2 denom fb xy).color_buffer p = fb.color_buffer p := by
  simp only [pixStep]
  split
  · refine rasterWrite_color_other _ _ _ _ _ _ ?_
    intro h
    exact hp (by rw [h])
  · rfl

/-! ## The pixel iteration list -/

theorem mem_intRange {a lo hi : Int} : a ∈ intRange lo hi ↔ lo ≤ a ∧ a ≤ hi := by
  unfold intRange
  constructor
  · intro h
    obtain ⟨n, hn, rfl⟩ := List.mem_map.mp h
    have := List.mem_range.mp hn
    omega
  · intro h
    refine List.mem_map.mpr ⟨(a - lo).toNat, List.mem_range.mpr ?_, ?_⟩ <;> omega

theorem nodup_intRange (lo hi : Int) : (intRange lo hi).Nodup := by
  unfold intRange
  refine List.Nodup.map ?_ (List.nodup_range _)
  intro n m h
  dsimp only at h
  omega

theorem mem_pixList {xy : Int × Int} {mnx mxx mny mxy : Int} :
    xy ∈ pixList mnx mxx mny mxy ↔
      (mnx ≤ xy.1 ∧ xy.1 ≤ mxx) ∧ (mny ≤ xy.2 ∧ xy.2 ≤ mxy) := by
  unfold pixList
  simp only [List.mem_flatMap, List.mem_map, mem_intRange]
  constructor
  · rintro ⟨y, hy, x, hx, rfl⟩
    exact ⟨hx, hy⟩
  · rintro ⟨hx, hy⟩
    exact ⟨xy.2, hy, xy.1, hx, rfl⟩

theorem nodup_pixList (mnx mxx mny mxy : Int) : (pixList mnx mxx mny mxy).Nodup := by
  unfold pixList
  refine List.nodup_flatMap.mpr ⟨?_, ?_⟩
  · intro y _
    refine List.Nodup.map ?_ (nodup_intRange mnx mxx)
    intro a b h
    exact congrArg Prod.fst h
  · refine List.Pairwise.imp ?_ (nodup_intRange mny mxy)
    intro y1 y2 hne p hp1 hp2
    obtain ⟨x1, hm1, rfl⟩ := List.mem_map.mp hp1
    obtain ⟨x2, hm2, h2⟩ := List.mem_map.mp hp2
    exact hne (congrArg Prod.snd h2).symm

/-! ## Finite-value computation rules -/

theorem fAdd_val (a b : ℚ) : fAdd (F32.val a) (F32.val b) = F32.val (a + b) := rfl

theorem fNeg_val (a : ℚ) : fNeg (F32.val a) = F32.val (-a) := rfl

theorem fSub_val (a b : ℚ) : fSub (F32.val a) (F32.val b) = F32.val (a - b) := by
  simp only [fSub, fNeg_val, fAdd_val, sub_eq_add_neg]

theorem fMul_val (a b : ℚ) : fMul (F32.val a) (F32.val b) = F32.val (a * b) := rfl

theorem fDiv_val {b : ℚ} (a : ℚ) (hb : b ≠ 0) :
    fDiv (F32.val a) (F32.val b) = F32.val (a / b) := by
  simp only [fDiv, if_neg hb]

theorem fLt_val (a b : ℚ) : fLt (F32.val a) (F32.val b) = decide (a < b) := rfl

theorem fLe_val (a b : ℚ) : fLe (F32.val a) (F32.val b) = decide (a ≤ b) := rfl

theorem fGe_val (a b : ℚ) : fGe (F32.val a) (F32.val b) = decide (b ≤ a) := rfl

theorem fMin_val (a b : ℚ) : fMin (F32.val a) (F32.val b) = F32.val (min a b) := rfl

theorem fMax_val (a b : ℚ) : fMax (F32.val a) (F32.val b) = F32.val (max a b) := rfl

theorem fAbs_val (a : ℚ) : fAbs (F32.val a) = F32.val |a| := rfl

theorem fClamp_val (x lo hi : ℚ) (h : lo ≤ hi) :
    fClamp (F32.val x) (F32.val lo) (F32.val hi) = F32.val (max lo (min hi x)) := by
  simp only [fClamp, fLt_val]
  rcases lt_or_le x lo with h1 | h1
  · rw [if_pos (by simpa using h1)]
    congr 1
    rw [min_eq_right (by linarith), max_eq_left (by linarith)]
  · rcases lt_or_le hi x with h2 | h2
    · rw [if_neg (by simpa using not_lt.mpr h1), if_pos (by simpa using h2)]
      congr 1
      rw [min_eq_left (by linarith), max_eq_right h]
    · rw [if_neg (by simpa using not_lt.mpr h1), if_neg (by simpa using not_lt.mpr h2)]
      congr 1
      rw [min_eq_right h2, max_eq_right h1]

/-! ## Bounds for the clamped bounding box and the z-buffer index -/

theorem ratTrunc_eq (q : ℚ) : ratTrunc q = if 0 ≤ q then ⌊q⌋ else ⌈q⌉ := by
  unfold ratTrunc
  split
  · next h =>
      rw [Rat.floor_def, Int.tdiv_eq_ediv (Rat.num_nonneg.mpr h) (Int.ofNat_nonneg _)]
  · next h =>
      have hq : q ≤ 0 := le_of_lt (lt_of_not_le h)
      have hnum : 0 ≤ -q.num := by
        have h2 : 0 ≤ (-q).num := Rat.num_nonneg.mpr (by linarith)
        simpa using h2
      have h1 : Int.tdiv q.num (q.den : Int) = -(Int.tdiv (-q.num) (q.den : Int)) := by
        rw [← Int.neg_tdiv, neg_neg]
      rw [h1, Int.tdiv_eq_ediv hnum (Int.ofNat_nonneg _)]
      have h3 : ⌈q⌉ = -⌊-q⌋ := by rw [Int.floor_neg, neg_neg]
      rw [h3, Rat.floor_def]
      simp

theorem ratTrunc_intCast (n : Int) : ratTrunc ((n : ℚ)) = n := by
  rw [ratTrunc_eq]
  split
  · exact Int.floor_intCast n
  · exact Int.ceil_intCast n

theorem ratTrunc_nonneg {q : ℚ} (h : 0 ≤ q) : 0 ≤ ratTrunc q := by
  rw [ratTrunc_eq, if_pos h]
  exact Int.floor_nonneg.mpr h

theorem ratTrunc_le_intCast {q : ℚ} {n : Int} (h : q ≤ (n : ℚ)) : ratTrunc q ≤ n := by
  rw [ratTrunc_eq]
  split
  · calc ⌊q⌋ ≤ ⌊(n : ℚ)⌋ := Int.floor_le_floor h
      _ = n := Int.floor_intCast n
  · exact Int.ceil_le.mpr h

theorem fToI32_fMax0_nonneg (s : F32) : 0 ≤ fToI32 (fMax s (fv 0)) := by
  cases s with
  | nan => decide
  | inf => decide
  | ninf => decide
  | val q =>
      show 0 ≤ max (-2147483648) (min 2147483647 (ratTrunc (max q 0)))
      have h1 : 0 ≤ ratTrunc (max q 0) := ratTrunc_nonneg (le_max_right q 0)
      omega

theorem fToI32_fMin_le (s : F32) {c : ℚ} {n : Int} (hc : c ≤ (n : ℚ)) (hn : -1 ≤ n) :
    fToI32 (fMin s (F32.val c)) ≤ n := by
  have hcn : ratTrunc c ≤ n := ratTrunc_le_intCast hc
  cases s with
  | nan =>
      show max (-2147483648) (min 2147483647 (ratTrunc c)) ≤ n
      omega
  | inf =>
      show max (-2147483648) (min 2147483647 (ratTrunc c)) ≤ n
      omega
  | ninf =>
      show (-2147483648 : Int) ≤ n
      omega
  | val q =>
      show max (-2147483648) (min 2147483647 (ratTrunc (min q c))) ≤ n
      have h1 : ratTrunc (min q c) ≤ n := ratTrunc_le_intCast (le_trans (min_le_right q c) hc)
      omega

theorem bbMinX_nonneg (p0 p1 p2 : Vec2) : 0 ≤ bbMinX p0 p1 p2 := fToI32_fMax0_nonneg _

theorem bbMinY_nonneg (p0 p1 p2 : Vec2) : 0 ≤ bbMinY p0 p1 p2 := fToI32_fMax0_nonneg _

theorem bbMaxX_le (W : Nat) (p0 p1 p2 : Vec2) : bbMaxX W p0 p1 p2 ≤ (W : Int) - 1 := by
  unfold bbMaxX
  have he : fSub (natToF W) (fv 1) = F32.val ((((W : Int) - 1 : Int)) : ℚ) := by
    unfold natToF fv
    rw [fSub_val]
    congr 1
    push_cast
    ring
  rw [he]
  exact fToI32_fMin_le _ (le_refl _) (by omega)

theorem bbMaxY_le (H : Nat) (p0 p1 p2 : Vec2) : bbMaxY H p0 p1 p2 ≤ (H : Int) - 1 := by
  unfold bbMaxY
  have he : fSub (natToF H) (fv 1) = F32.val ((((H : Int) - 1 : Int)) : ℚ) := by
    unfold natToF fv
    rw [fSub_val]
    congr 1
    push_cast
    ring
  rw [he]
  exact fToI32_fMin_le _ (le_refl _) (by omega)

theorem pixel_bounds {W H : Nat} {p0 p1 p2 : Vec2} {xy : Int × Int}
    (hm : xy ∈ pixList (bbMinX p0 p1 p2) (bbMaxX W p0 p1 p2) (bbMinY p0 p1 p2) (bbMaxY H p0 p1 p2)) :
    0 ≤ xy.1 ∧ xy.1 < (W : Int) ∧ 0 ≤ xy.2 ∧ xy.2 < (H : Int) := by
  obtain ⟨⟨ha, hb⟩, hc, hd⟩ := mem_pixList.mp hm
  have h1 := bbMinX_nonneg p0 p1 p2
  have h2 := bbMaxX_le W p0 p1 p2
  have h3 := bbMinY_nonneg p0 p1 p2
  have h4 := bbMaxY_le H p0 p1 p2
  omega

theorem rowmajor_inj {W a b a' b' : Nat} (ha : a < W) (ha' : a' < W)
    (h : b * W + a = b' * W + a') : a = a' ∧ b = b' := by
  have e1 : a = a' := by
    have h2 : (a + b * W) % W = (a' + b' * W) % W := by
      rw [Nat.add_comm a (b * W), Nat.add_comm a' (b' * W)]
      exact congrArg (fun n => n % W) h
    rwa [Nat.add_mul_mod_self_right, Nat.add_mul_mod_self_right, Nat.mod_eq_of_lt ha,
      Nat.mod_eq_of_lt ha'] at h2
  refine ⟨e1, ?_⟩
  subst e1
  have hW : 0 < W := Nat.pos_of_ne_zero (by omega)
  have h3 : b * W = b' * W := by omega
  exact Nat.eq_of_mul_eq_mul_right hW h3

theorem pixIdx_eq {W H : Nat} {x y : Int} (hx0 : 0 ≤ x) (hxW : x < (W : Int))
    (hy0 : 0 ≤ y) (hyH : y < (H : Int)) (hWH : W * H ≤ 4294967296) :
    pixIdx W x y = y.toNat * W + x.toNat := by
  have hW1 : 0 < W := by omega
  have hH1 : 0 < H := by omega
  have hHle : H ≤ W * H := Nat.le_mul_of_pos_left H hW1
  have hWle : W ≤ W * H := Nat.le_mul_of_pos_right W hH1
  unfold pixIdx toU32
  have h1 : y % 4294967296 = y := Int.emod_eq_of_lt hy0 (by omega)
  have h2 : x % 4294967296 = x := Int.emod_eq_of_lt hx0 (by omega)
  rw [h1, h2]
  have hb : y.toNat * W + x.toNat < W * H := by
    have hxa : x.toNat < W := by omega
    have hya : y.toNat < H := by omega
    calc y.toNat * W + x.toNat < y.toNat * W + W := by omega
      _ = (y.toNat + 1) * W := by ring
      _ ≤ H * W := Nat.mul_le_mul_right W (by omega)
      _ = W * H := Nat.mul_comm H W
  exact Nat.mod_eq_of_lt (by omega)

theorem pixIdx_lt {W H : Nat} {x y : Int} (hx0 : 0 ≤ x) (hxW : x < (W : Int))
    (hy0 : 0 ≤ y) (hyH : y < (H : Int)) (hWH : W * H ≤ 4294967296) :
    pixIdx W x y < W * H := by
  rw [pixIdx_eq hx0 hxW hy0 hyH hWH]
  have hxa : x.toNat < W := by omega
  have hya : y.toNat < H := by omega
  calc y.toNat * W + x.toNat < y.toNat * W + W := by omega
    _ = (y.toNat + 1) * W := by ring
    _ ≤ H * W := Nat.mul_le_mul_right W (by omega)
    _ = W * H := Nat.mul_comm H W

theorem pixIdx_inj {W H : Nat} {x y x' y' : Int} (hx0 : 0 ≤ x) (hxW : x < (W : Int))
    (hy0 : 0 ≤ y) (hyH : y < (H : Int)) (hx0' : 0 ≤ x') (hxW' : x' < (W : Int))
    (hy0' : 0 ≤ y') (hyH' : y' < (H : Int)) (hWH : W * H ≤ 4294967296)
    (hne : (x, y) ≠ (x', y')) : pixIdx W x y ≠ pixIdx W x' y' := by
  rw [pixIdx_eq hx0 hxW hy0 hyH hWH, pixIdx_eq hx0' hxW' hy0' hyH' hWH]
  intro h
  obtain ⟨e1, e2⟩ := rowmajor_inj (by omega) (by omega) h
  exact hne (by simp only [Prod.mk.injEq]; omega)

/-! ## Per-pixel characterization of the rasterizer loop -/

theorem foldl_pixStep_untouched (sh : Vec3 → Vec3 → F32 → Color) (v0 v1 v2 : Vec3) (time : F32)
    (normal : Vec3) (p0 p1 p2 : Vec2) (denom : F32) (W H : Nat)
    (hWH : W * H < 2147483648) {x y : Int}
    (hx0 : 0 ≤ x) (hxW : x < (W : Int)) (hy0 : 0 ≤ y) (hyH : y < (H : Int)) :
    ∀ (l : List (Int × Int)) (fb : Framebuffer), fb.width = W → fb.height = H →
      (∀ p ∈ l, p ≠ (x, y) ∧ 0 ≤ p.1 ∧ p.1 < (W : Int) ∧ 0 ≤ p.2 ∧ p.2 < (H : Int)) →
      (l.foldl (pixStep sh v0 v1 v2 time normal p0 p1 p2 denom) fb).z_buffer (pixIdx W x y) =
          fb.z_buffer (pixIdx W x y) ∧
        (l.foldl (pixStep sh v0 v1 v2 time normal p0 p1 p2 denom) fb).color_buffer (x, y) =
          fb.color_buffer (x, y) := by
  intro l
  induction l with
  | nil => intro fb _ _ _; exact ⟨rfl, rfl⟩
  | cons hd tl ih =>
      intro fb hw hh hl
      obtain ⟨hne, hb1, hb2, hb3, hb4⟩ := hl hd (List.mem_cons_self hd tl)
      have hstep_w : (pixStep sh v0 v1 v2 time normal p0 p1 p2 denom fb hd).width = W := by
        rw [pixStep_width, hw]
      have hstep_h : (pixStep sh v0 v1 v2 time normal p0 p1 p2 denom fb hd).height = H := by
        rw [pixStep_height, hh]
      have htl := ih (pixStep sh v0 v1 v2 time normal p0 p1 p2 denom fb hd) hstep_w hstep_h
        (fun p hp => hl p (List.mem_cons_of_mem hd hp))
      rw [List.foldl_cons]
      have hidx : pixIdx W x y ≠ pixIdx fb.width hd.1 hd.2 := by
        rw [hw]
        refine pixIdx_inj hx0 hxW hy0 hyH hb1 hb2 hb3 hb4 (by omega) ?_
        intro hcontra
        exact hne hcontra.symm
      have hz := pixStep_z_other sh v0 v1 v2 time normal p0 p1 p2 denom fb hd _ hidx
      have hc := pixStep_color_other sh v0 v1 v2 time normal p0 p1 p2 denom fb hd (x, y)
        (fun hcontra => hne hcontra.symm)
      exact ⟨htl.1.trans hz, htl.2.trans hc⟩

theorem mem_pixList_iff_inBBox {W H : Nat} {v0 v1 v2 : Vec3} {x y : Int} :
    (x, y) ∈ pixList (bbMinX (projPt W H v0) (projPt W H v1) (projPt W H v2))
        (bbMaxX W (projPt W H v0) (projPt W H v1) (projPt W H v2))
        (bbMinY (projPt W H v0) (projPt W H v1) (projPt W H v2))
        (bbMaxY H (projPt W H v0) (projPt W H v1) (projPt W H v2)) ↔
      inBBoxAt W H v0 v1 v2 x y := by
  rw [mem_pixList]
  unfold inBBoxAt
  tauto

theorem drawRaster_pixel_spec (ops : Ops) (sh : Vec3 → Vec3 → F32 → Color) (fb : Framebuffer)
    (v0 v1 v2 : Vec3) (time : F32) {x y : Int}
    (hWH : fb.width * fb.height < 2147483648)
    (hx0 : 0 ≤ x) (hxW : x < (fb.width : Int)) (hy0 : 0 ≤ y) (hyH : y < (fb.height : Int)) :
    ((attemptsAt ops fb.width fb.height v0 v1 v2 x y = true ∧
        fLt (depthAtPix fb.width fb.height v0 v1 v2 x y)
          (fb.z_buffer (pixIdx fb.width x y)) = true) →
      (drawRaster ops sh fb v0 v1 v2 time).z_buffer (pixIdx fb.width x y) =
          depthAtPix fb.width fb.height v0 v1 v2 x y ∧
        (drawRaster ops sh fb v0 v1 v2 time).color_buffer (x, y) =
          colorAtPix ops sh fb.width fb.height v0 v1 v2 time x y) ∧
    (¬ (attemptsAt ops fb.width fb.height v0 v1 v2 x y = true ∧
        fLt (depthAtPix fb.width fb.height v0 v1 v2 x y)
          (fb.z_buffer (pixIdx fb.width x y)) = true) →
      (drawRaster ops sh fb v0 v1 v2 time).z_buffer (pixIdx fb.width x y) =
          fb.z_buffer (pixIdx fb.width x y) ∧
        (drawRaster ops sh fb v0 v1 v2 time).color_buffer (x, y) =
          fb.color_buffer (x, y)) := by
  have hW1 : 0 < fb.width := by omega
  have hH1 : 0 < fb.height := by omega
  have hW31 : fb.width < 2147483648 := lt_of_le_of_lt (Nat.le_mul_of_pos_right _ hH1) hWH
  have hH31 : fb.height < 2147483648 := lt_of_le_of_lt (Nat.le_mul_of_pos_left _ hW1) hWH
  set W := fb.width with hWdef
  set H := fb.height with hHdef
  set p0 := projPt W H v0 with hp0
  set p1 := projPt W H v1 with hp1
  set p2 := projPt W H v2 with hp2
  set normal := faceNormal ops v0 v1 v2 with hnormal
  set denom := denomOf p0 p1 p2 with hdenom
  set idx := pixIdx W x y with hidx
  set dpt := depthAtPix W H v0 v1 v2 x y with hdpt
  by_cases hcull : fGe normal.z (fv 0) = true
  · have hdraw : drawRaster ops sh fb v0 v1 v2 time = fb := by
      simp only [drawRaster]
      rw [if_pos hcull]
    have hatt : attemptsAt ops W H v0 v1 v2 x y = false := by
      unfold attemptsAt
      simp only [← hp0, ← hp1, ← hp2, ← hnormal, ← hdenom]
      simp [hcull]
    rw [hdraw]
    constructor
    · rintro ⟨h1, _⟩
      rw [hatt] at h1
      cases h1
    · intro _
      exact ⟨rfl, rfl⟩
  · by_cases hden : fLt (fAbs denom) (fv (1/1000000)) = true
    · have hdraw : drawRaster ops sh fb v0 v1 v2 time = fb := by
        simp only [drawRaster]
        rw [if_neg hcull, if_pos hden]
      have hatt : attemptsAt ops W H v0 v1 v2 x y = false := by
        unfold attemptsAt
        simp only [← hp0, ← hp1, ← hp2, ← hnormal, ← hdenom]
        rw [hden]
        simp
      rw [hdraw]
      constructor
      · rintro ⟨h1, _⟩
        rw [hatt] at h1
        cases h1
      · intro _
        exact ⟨rfl, rfl⟩
    · have hdraw : drawRaster ops sh fb v0 v1 v2 time =
          (pixList (bbMinX p0 p1 p2) (bbMaxX W p0 p1 p2) (bbMinY p0 p1 p2)
            (bbMaxY H p0 p1 p2)).foldl
            (pixStep sh v0 v1 v2 time normal p0 p1 p2 denom) fb := by
        simp only [drawRaster]
        rw [if_neg hcull, if_neg hden]
      by_cases hmem : (x, y) ∈ pixList (bbMinX p0 p1 p2) (bbMaxX W p0 p1 p2)
          (bbMinY p0 p1 p2) (bbMaxY H p0 p1 p2)
      · -- the pixel is in the bounding box: split the list at its occurrence
        obtain ⟨l₁, l₂, hsplit⟩ := List.append_of_mem hmem
        have hnodup := nodup_pixList (bbMinX p0 p1 p2) (bbMaxX W p0 p1 p2)
          (bbMinY p0 p1 p2) (bbMaxY H p0 p1 p2)
        rw [hsplit] at hnodup
        rw [List.nodup_append] at hnodup
        obtain ⟨hnd1, hnd2, hdisj⟩ := hnodup
        have hnot1 : (x, y) ∉ l₁ := fun h => hdisj h (List.mem_cons_self _ _)
        have hnot2 : (x, y) ∉ l₂ := (List.nodup_cons.mp hnd2).1
        have hbmem : ∀ p ∈ pixList (bbMinX p0 p1 p2) (bbMaxX W p0 p1 p2)
            (bbMinY p0 p1 p2) (bbMaxY H p0 p1 p2),
            0 ≤ p.1 ∧ p.1 < (W : Int) ∧ 0 ≤ p.2 ∧ p.2 < (H : Int) := fun p hp =>
          pixel_bounds hp
        have hl1 : ∀ p ∈ l₁, p ≠ (x, y) ∧ 0 ≤ p.1 ∧ p.1 < (W : Int) ∧ 0 ≤ p.2 ∧
            p.2 < (H : Int) := by
          intro p hp
          refine ⟨fun h => hnot1 (h ▸ hp), ?_⟩
          exact hbmem p (hsplit ▸ List.mem_append_left _ hp)
        have hl2 : ∀ p ∈ l₂, p ≠ (x, y) ∧ 0 ≤ p.1 ∧ p.1 < (W : Int) ∧ 0 ≤ p.2 ∧
            p.2 < (H : Int) := by
          intro p hp
          refine ⟨fun h => hnot2 (h ▸ hp), ?_⟩
          exact hbmem p (hsplit ▸ List.mem_append_right _ (List.mem_cons_of_mem _ hp))
        rw [hdraw, hsplit, List.foldl_append, List.foldl_cons]
        set fb1 := l₁.foldl (pixStep sh v0 v1 v2 time normal p0 p1 p2 denom) fb with hfb1
        have hfb1w : fb1.width = W := by rw [hfb1, foldl_pixStep_width]
        have hfb1h : fb1.height = H := by rw [hfb1, foldl_pixStep_height]
        have h1 := foldl_pixStep_untouched sh v0 v1 v2 time normal p0 p1 p2 denom W H hWH
          hx0 hxW hy0 hyH l₁ fb rfl rfl hl1
        rw [← hfb1] at h1
        set fb2 := pixStep sh v0 v1 v2 time normal p0 p1 p2 denom fb1 (x, y) with hfb2
        have hfb2w : fb2.width = W := by rw [hfb2, pixStep_width, hfb1w]
        have hfb2h : fb2.height = H := by rw [hfb2, pixStep_height, hfb1h]
        have h2 := foldl_pixStep_untouched sh v0 v1 v2 time normal p0 p1 p2 denom W H hWH
          hx0 hxW hy0 hyH l₂ fb2 hfb2w hfb2h hl2
        have hbb : inBBoxAt W H v0 v1 v2 x y := mem_pixList_iff_inBBox.mp hmem
        have hcull2 : fGe normal.z (fv 0) = false := by
          cases hfg : fGe normal.z (fv 0)
          · rfl
          · exact absurd hfg hcull
        have hden2 : fLt (fAbs denom) (fv (1/1000000)) = false := by
          cases hfd : fLt (fAbs denom) (fv (1/1000000))
          · rfl
          · exact absurd hfd hden
        have hattconj : attemptsAt ops W H v0 v1 v2 x y =
            coverageAt p0 p1 p2 denom x y := by
          unfold attemptsAt
          simp only [← hp0, ← hp1, ← hp2, ← hnormal, ← hdenom]
          rw [hcull2, hden2]
          simp [hbb]
        by_cases hcov : coverageAt p0 p1 p2 denom x y = true
        · -- covered: the step is the depth-tested write
          have hstep : fb2 = rasterWrite fb1 x y (depthAt v0 v1 v2 p0 p1 p2 denom x y)
              (sh (posAt v0 v1 v2 p0 p1 p2 denom x y) normal time) := by
            rw [hfb2]
            simp only [pixStep]
            rw [if_pos hcov]
          have hdeq : depthAt v0 v1 v2 p0 p1 p2 denom x y = dpt := rfl
          have hidx1 : pixIdx fb1.width x y = idx := by rw [hfb1w]
          have hin : 0 ≤ x ∧ 0 ≤ y ∧ x < u32ToI32 fb1.width ∧ y < u32ToI32 fb1.height := by
            rw [hfb1w, hfb1h]
            unfold u32ToI32
            rw [if_pos hW31, if_pos hH31]
            exact ⟨hx0, hy0, hxW, hyH⟩
          have hz2 : fb2.z_buffer idx =
              if fLt dpt (fb.z_buffer idx) then dpt else fb.z_buffer idx := by
            rw [hstep, ← hidx1]
            rw [rasterWrite_z_self]
            rw [hidx1, h1.1, hdeq]
          have hc2 : fb2.color_buffer (x, y) =
              if fLt dpt (fb.z_buffer idx) then
                colorAtPix ops sh W H v0 v1 v2 time x y
              else fb.color_buffer (x, y) := by
            rw [hstep]
            have := rasterWrite_color_self fb1 x y (depthAt v0 v1 v2 p0 p1 p2 denom x y)
              (sh (posAt v0 v1 v2 p0 p1 p2 denom x y) normal time) hin
            rw [this, hidx1, h1.1, hdeq, h1.2]
            rfl
          constructor
          · rintro ⟨hatt, hlt⟩
            rw [h2.1, h2.2, hz2, hc2, if_pos hlt, if_pos hlt]
            exact ⟨rfl, rfl⟩
          · intro hnand
            have hlt : fLt dpt (fb.z_buffer idx) = false := by
              rcases Bool.eq_false_or_eq_true (fLt dpt (fb.z_buffer idx)) with h | h
              · exact absurd ⟨hattconj.trans hcov, h⟩ hnand
              · exact h
            rw [h2.1, h2.2, hz2, hc2, if_neg (by rw [hlt]; exact Bool.false_ne_true),
              if_neg (by rw [hlt]; exact Bool.false_ne_true)]
            exact ⟨rfl, rfl⟩
        · -- not covered: the step is the identity
          have hstep : fb2 = fb1 := by
            rw [hfb2]
            simp only [pixStep]
            rw [if_neg hcov]
          constructor
          · rintro ⟨hatt, _⟩
            rw [hattconj] at hatt
            exact absurd hatt hcov
          · intro _
            rw [h2.1, h2.2, hstep]
            exact ⟨h1.1, h1.2⟩
      · -- outside the bounding box: nothing in the loop touches the pixel
        have hatt : attemptsAt ops W H v0 v1 v2 x y = false := by
          unfold attemptsAt
          simp only [← hp0, ← hp1, ← hp2, ← hnormal, ← hdenom]
          have hbb : ¬ inBBoxAt W H v0 v1 v2 x y := fun h =>
            hmem (mem_pixList_iff_inBBox.mpr h)
          simp [hbb]
        have hl : ∀ p ∈ pixList (bbMinX p0 p1 p2) (bbMaxX W p0 p1 p2) (bbMinY p0 p1 p2)
            (bbMaxY H p0 p1 p2), p ≠ (x, y) ∧ 0 ≤ p.1 ∧ p.1 < (W : Int) ∧ 0 ≤ p.2 ∧
            p.2 < (H : Int) := by
          intro p hp
          exact ⟨fun h => hmem (h ▸ hp), pixel_bounds hp⟩
        have h1 := foldl_pixStep_untouched sh v0 v1 v2 time normal p0 p1 p2 denom W H hWH
          hx0 hxW hy0 hyH _ fb rfl rfl hl
        rw [hdraw]
        constructor
        · rintro ⟨hattT, _⟩
          rw [hatt] at hattT
          cases hattT
        · intro _
          exact ⟨h1.1, h1.2⟩

/-! ## NaN-bearing input: no pixel passes the coverage test -/

/-- The vertex triple contains a NaN coordinate. -/
def triHasNaN (v0 v1 v2 : Vec3) : Prop :=
  v0.x = F32.nan ∨ v0.y = F32.nan ∨ v0.z = F32.nan ∨
  v1.x = F32.nan ∨ v1.y = F32.nan ∨ v1.z = F32.nan ∨
  v2.x = F32.nan ∨ v2.y = F32.nan ∨ v2.z = F32.nan

instance (v0 v1 v2 : Vec3) : Decidable (triHasNaN v0 v1 v2) := by
  unfold triHasNaN; infer_instance

theorem project_x_nan_of_x {v : Vec3} (h : v.x = F32.nan) (w ht s : F32) :
    (project v w ht s).x = F32.nan := by
  simp [project, h, fMul_nan_left, fDiv_nan_left, fAdd_nan_right]

theorem project_y_nan_of_y {v : Vec3} (h : v.y = F32.nan) (w ht s : F32) :
    (project v w ht s).y = F32.nan := by
  simp [project, h, fMul_nan_left, fDiv_nan_left, fSub_nan_right]

theorem project_nan_of_z {v : Vec3} (h : v.z = F32.nan) (w ht s : F32) :
    (project v w ht s).x = F32.nan ∧ (project v w ht s).y = F32.nan := by
  constructor <;>
    simp [project, h, fAdd_nan_left, fDiv_nan_right, fMul_nan_right, fMul_nan_left,
      fDiv_nan_left, fAdd_nan_right, fSub_nan_right]

theorem denomOf_nan_of_p0x {p0 p1 p2 : Vec2} (h : p0.x = F32.nan) :
    denomOf p0 p1 p2 = F32.nan := by
  simp [denomOf, h, fSub_nan_left, fMul_nan_right, fAdd_nan_left]

theorem denomOf_nan_of_p0y {p0 p1 p2 : Vec2} (h : p0.y = F32.nan) :
    denomOf p0 p1 p2 = F32.nan := by
  simp [denomOf, h, fSub_nan_left, fMul_nan_right, fAdd_nan_right]

theorem w0At_nan_of_denom {p0 p1 p2 : Vec2} {x y : Int} (h : denom = F32.nan) :
    w0At p0 p1 p2 denom x y = F32.nan := by
  simp [w0At, h, fDiv_nan_right]

theorem w0At_nan_of_p1x {p0 p1 p2 : Vec2} (denom : F32) (x y : Int) (h : p1.x = F32.nan) :
    w0At p0 p1 p2 denom x y = F32.nan := by
  simp [w0At, h, fSub_nan_right, fMul_nan_left, fAdd_nan_right, fDiv_nan_left]

theorem w0At_nan_of_p1y {p0 p1 p2 : Vec2} (denom : F32) (x y : Int) (h : p1.y = F32.nan) :
    w0At p0 p1 p2 denom x y = F32.nan := by
  simp [w0At, h, fSub_nan_left, fMul_nan_left, fAdd_nan_left, fDiv_nan_left]

theorem w0At_nan_of_p2x {p0 p1 p2 : Vec2} (denom : F32) (x y : Int) (h : p2.x = F32.nan) :
    w0At p0 p1 p2 denom x y = F32.nan := by
  simp [w0At, h, fSub_nan_right, fSub_nan_left, fMul_nan_right, fMul_nan_left,
    fAdd_nan_left, fDiv_nan_left]

theorem w0At_nan_of_p2y {p0 p1 p2 : Vec2} (denom : F32) (x y : Int) (h : p2.y = F32.nan) :
    w0At p0 p1 p2 denom x y = F32.nan := by
  simp [w0At, h, fSub_nan_right, fMul_nan_right, fMul_nan_left, fAdd_nan_left, fDiv_nan_left]

theorem w0At_nan_of_triHasNaN {W H : Nat} {v0 v1 v2 : Vec3} (x y : Int)
    (h : triHasNaN v0 v1 v2) :
    w0At (projPt W H v0) (projPt W H v1) (projPt W H v2)
      (denomOf (projPt W H v0) (projPt W H v1) (projPt W H v2)) x y = F32.nan := by
  unfold projPt at *
  rcases h with h | h | h | h | h | h | h | h | h
  · exact w0At_nan_of_denom (denomOf_nan_of_p0x (project_x_nan_of_x h _ _ _))
  · exact w0At_nan_of_denom (denomOf_nan_of_p0y (project_y_nan_of_y h _ _ _))
  · exact w0At_nan_of_denom (denomOf_nan_of_p0x (project_nan_of_z h _ _ _).1)
  · exact w0At_nan_of_p1x _ _ _ (project_x_nan_of_x h _ _ _)
  · exact w0At_nan_of_p1y _ _ _ (project_y_nan_of_y h _ _ _)
  · exact w0At_nan_of_p1y _ _ _ (project_nan_of_z h _ _ _).2
  · exact w0At_nan_of_p2x _ _ _ (project_x_nan_of_x h _ _ _)
  · exact w0At_nan_of_p2y _ _ _ (project_y_nan_of_y h _ _ _)
  · exact w0At_nan_of_p2x _ _ _ (project_nan_of_z h _ _ _).1

theorem coverage_false_of_w0_nan {p0 p1 p2 : Vec2} {denom : F32} {x y : Int}
    (h : w0At p0 p1 p2 denom x y = F32.nan) :
    coverageAt p0 p1 p2 denom x y = false := by
  unfold coverageAt
  rw [h, fGe_nan_left]
  rfl

theorem foldl_pixStep_id (sh : Vec3 → Vec3 → F32 → Color) (v0 v1 v2 : Vec3) (time : F32)
    (normal : Vec3) (p0 p1 p2 : Vec2) (denom : F32)
    (hcov : ∀ x y : Int, coverageAt p0 p1 p2 denom x y = false) :
    ∀ (l : List (Int × Int)) (fb : Framebuffer),
      l.foldl (pixStep sh v0 v1 v2 time normal p0 p1 p2 denom) fb = fb := by
  intro l
  induction l with
  | nil => intro fb; rfl
  | cons hd tl ih =>
      intro fb
      rw [List.foldl_cons]
      have hstep : pixStep sh v0 v1 v2 time normal p0 p1 p2 denom fb hd = fb := by
        simp only [pixStep]
        rw [if_neg]
        rw [hcov hd.1 hd.2]
        exact Bool.false_ne_true
      rw [hstep, ih]

theorem drawRaster_eq_of_nan (ops : Ops) (sh : Vec3 → Vec3 → F32 → Color) (fb : Framebuffer)
    {v0 v1 v2 : Vec3} (time : F32) (h : triHasNaN v0 v1 v2) :
    drawRaster ops sh fb v0 v1 v2 time = fb := by
  simp only [drawRaster]
  split
  · rfl
  · split
    · rfl
    · exact foldl_pixStep_id sh v0 v1 v2 time _ _ _ _ _
        (fun x y => coverage_false_of_w0_nan
          (@w0At_nan_of_triHasNaN fb.width fb.height v0 v1 v2 x y h)) _ fb

/-! ## Backface culling on finite normals -/

theorem drawRaster_eq_of_culled (ops : Ops) (sh : Vec3 → Vec3 → F32 → Color) (fb : Framebuffer)
    {v0 v1 v2 : Vec3} (time : F32)
    (h : fGe (faceNormal ops v0 v1 v2).z (fv 0) = true) :
    drawRaster ops sh fb v0 v1 v2 time = fb := by
  simp only [drawRaster]
  rw [if_pos h]

theorem vNormalized_z_ge0_zero (ops : Ops) :
    fGe (vNormalized ops ⟨F32.val 0, F32.val 0, F32.val 0⟩).z (fv 0) = true := by
  simp only [vNormalized, vLength, fMul_val, fAdd_val]
  norm_num
  rw [ops.sqrt_zero]
  simp [fDiv_val, fMul_val, fGe_val, fv]

theorem vNormalized_z_ge0_sign (ops : Ops) (cx cy cz : ℚ)
    (hnz : ¬ (cx = 0 ∧ cy = 0 ∧ cz = 0)) :
    fGe (vNormalized ops ⟨F32.val cx, F32.val cy, F32.val cz⟩).z (fv 0) = decide (0 ≤ cz) := by
  have hs : 0 < cx * cx + cy * cy + cz * cz := by
    have h1 := mul_self_nonneg cx
    have h2 := mul_self_nonneg cy
    have h3 := mul_self_nonneg cz
    rcases not_and_or.mp hnz with h | h
    · have := mul_self_pos.mpr h
      linarith
    · rcases not_and_or.mp h with h | h
      · have := mul_self_pos.mpr h
        linarith
      · have := mul_self_pos.mpr h
        linarith
  obtain ⟨r, hr, hsqrt⟩ := ops.sqrt_pos _ hs
  simp only [vNormalized, vLength, fMul_val, fAdd_val]
  rw [hsqrt]
  have hne : F32.val r ≠ F32.val 0 := by
    intro hcontra
    injection hcontra with h2
    exact absurd h2 (ne_of_gt hr)
  rw [if_neg hne, fDiv_val 1 (ne_of_gt hr)]
  simp only [fMul_val, fv, fGe_val]
  have hiff : (0 ≤ cz * (1 / r)) ↔ (0 ≤ cz) := by
    have hpos : 0 < 1 / r := one_div_pos.mpr hr
    constructor
    · intro h2
      by_contra h3
      push_neg at h3
      have := mul_neg_of_neg_of_pos h3 hpos
      linarith
    · intro h2
      exact mul_nonneg h2 (le_of_lt hpos)
  rw [one_div] at hiff
  simp [hiff]

/-- The reversed-winding cross product has finite componentwise-negated
coordinates when all vertex coordinates are finite. -/
theorem cross_val {a0x a0y a0z a1x a1y a1z a2x a2y a2z : ℚ} :
    vCross (vSub ⟨F32.val a1x, F32.val a1y, F32.val a1z⟩ ⟨F32.val a0x, F32.val a0y, F32.val a0z⟩)
        (vSub ⟨F32.val a2x, F32.val a2y, F32.val a2z⟩ ⟨F32.val a0x, F32.val a0y, F32.val a0z⟩) =
      ⟨F32.val ((a1y - a0y) * (a2z - a0z) - (a1z - a0z) * (a2y - a0y)),
       F32.val ((a1z - a0z) * (a2x - a0x) - (a1x - a0x) * (a2z - a0z)),
       F32.val ((a1x - a0x) * (a2y - a0y) - (a1y - a0y) * (a2x - a0x))⟩ := by
  simp only [vCross, vSub, fSub_val, fMul_val]

theorem val_of_finite {f : F32} (h1 : f ≠ F32.nan) (h2 : f ≠ F32.inf) (h3 : f ≠ F32.ninf) :
    ∃ q : ℚ, f = F32.val q := by
  cases f
  · exact absurd rfl h1
  · exact absurd rfl h2
  · exact absurd rfl h3
  · exact ⟨_, rfl⟩

/-- No vertex coordinate is an infinity. -/
def triNoInf (v0 v1 v2 : Vec3) : Prop :=
  v0.x ≠ F32.inf ∧ v0.x ≠ F32.ninf ∧ v0.y ≠ F32.inf ∧ v0.y ≠ F32.ninf ∧
  v0.z ≠ F32.inf ∧ v0.z ≠ F32.ninf ∧
  v1.x ≠ F32.inf ∧ v1.x ≠ F32.ninf ∧ v1.y ≠ F32.inf ∧ v1.y ≠ F32.ninf ∧
  v1.z ≠ F32.inf ∧ v1.z ≠ F32.ninf ∧
  v2.x ≠ F32.inf ∧ v2.x ≠ F32.ninf ∧ v2.y ≠ F32.inf ∧ v2.y ≠ F32.ninf ∧
  v2.z ≠ F32.inf ∧ v2.z ≠ F32.ninf

instance (v0 v1 v2 : Vec3) : Decidable (triNoInf v0 v1 v2) := by
  unfold triNoInf; infer_instance

theorem drawRaster_backface (ops : Ops) (sh : Vec3 → Vec3 → F32 → Color) (fb : Framebuffer)
    (v0 v1 v2 : Vec3) (time : F32) (hni : triNoInf v0 v1 v2) :
    drawRaster ops sh fb v0 v1 v2 time = fb ∨ drawRaster ops sh fb v0 v2 v1 time = fb := by
  by_cases hnan : triHasNaN v0 v1 v2
  · exact Or.inl (drawRaster_eq_of_nan ops sh fb time hnan)
  · obtain ⟨v0x, v0y, v0z⟩ := v0
    obtain ⟨v1x, v1y, v1z⟩ := v1
    obtain ⟨v2x, v2y, v2z⟩ := v2
    unfold triHasNaN at hnan
    push_neg at hnan
    obtain ⟨m1, m2, m3, m4, m5, m6, m7, m8, m9⟩ := hnan
    obtain ⟨i1, i2, i3, i4, i5, i6, i7, i8, i9, i10, i11, i12, i13, i14, i15, i16, i17, i18⟩ := hni
    obtain ⟨a0x, e1⟩ := val_of_finite m1 i1 i2
    obtain ⟨a0y, e2⟩ := val_of_finite m2 i3 i4
    obtain ⟨a0z, e3⟩ := val_of_finite m3 i5 i6
    obtain ⟨a1x, e4⟩ := val_of_finite m4 i7 i8
    obtain ⟨a1y, e5⟩ := val_of_finite m5 i9 i10
    obtain ⟨a1z, e6⟩ := val_of_finite m6 i11 i12
    obtain ⟨a2x, e7⟩ := val_of_finite m7 i13 i14
    obtain ⟨a2y, e8⟩ := val_of_finite m8 i15 i16
    obtain ⟨a2z, e9⟩ := val_of_finite m9 i17 i18
    simp only at e1 e2 e3 e4 e5 e6 e7 e8 e9
    subst e1 e2 e3 e4 e5 e6 e7 e8 e9
    have hfn1 : faceNormal ops ⟨F32.val a0x, F32.val a0y, F32.val a0z⟩
        ⟨F32.val a1x, F32.val a1y, F32.val a1z⟩ ⟨F32.val a2x, F32.val a2y, F32.val a2z⟩ =
        vNormalized ops
          ⟨F32.val ((a1y - a0y) * (a2z - a0z) - (a1z - a0z) * (a2y - a0y)),
           F32.val ((a1z - a0z) * (a2x - a0x) - (a1x - a0x) * (a2z - a0z)),
           F32.val ((a1x - a0x) * (a2y - a0y) - (a1y - a0y) * (a2x - a0x))⟩ := by
      unfold faceNormal
      rw [cross_val]
    have hfn2 : faceNormal ops ⟨F32.val a0x, F32.val a0y, F32.val a0z⟩
        ⟨F32.val a2x, F32.val a2y, F32.val a2z⟩ ⟨F32.val a1x, F32.val a1y, F32.val a1z⟩ =
        vNormalized ops
          ⟨F32.val (-((a1y - a0y) * (a2z - a0z) - (a1z - a0z) * (a2y - a0y))),
           F32.val (-((a1z - a0z) * (a2x - a0x) - (a1x - a0x) * (a2z - a0z))),
           F32.val (-((a1x - a0x) * (a2y - a0y) - (a1y - a0y) * (a2x - a0x)))⟩ := by
      unfold faceNormal
      rw [cross_val]
      congr 1
      · congr 1 <;> ring
    set c1 : ℚ := (a1y - a0y) * (a2z - a0z) - (a1z - a0z) * (a2y - a0y) with hc1
    set c2 : ℚ := (a1z - a0z) * (a2x - a0x) - (a1x - a0x) * (a2z - a0z) with hc2
    set c3 : ℚ := (a1x - a0x) * (a2y - a0y) - (a1y - a0y) * (a2x - a0x) with hc3
    by_cases hzero : c1 = 0 ∧ c2 = 0 ∧ c3 = 0
    · refine Or.inl (drawRaster_eq_of_culled ops sh fb time ?_)
      rw [hfn1, hzero.1, hzero.2.1, hzero.2.2]
      exact vNormalized_z_ge0_zero ops
    · by_cases hcz : 0 ≤ c3
      · refine Or.inl (drawRaster_eq_of_culled ops sh fb time ?_)
        rw [hfn1, vNormalized_z_ge0_sign ops c1 c2 c3 hzero]
        simp [hcz]
      · refine Or.inr (drawRaster_eq_of_culled ops sh fb time ?_)
        rw [hfn2, vNormalized_z_ge0_sign ops (-c1) (-c2) (-c3) (by
          intro hcontra
          exact hzero ⟨by linarith [hcontra.1], by linarith [hcontra.2.1],
            by linarith [hcontra.2.2]⟩)]
        simp
        linarith

/-! ## Depth monotonicity of the write paths -/

theorem rasterWrite_z_decrease (fb : Framebuffer) (x y : Int) (d : F32) (c : Color) (i : Nat) :
    (rasterWrite fb x y d c).z_buffer i = fb.z_buffer i ∨
      fLt ((rasterWrite fb x y d c).z_buffer i) (fb.z_buffer i) = true := by
  simp only [rasterWrite]
  split
  · next h =>
      rw [set_pixel_with_color_z]
      by_cases hi : i = pixIdx fb.width x y
      · subst hi
        right
        simpa using h
      · left
        simp [hi]
  · left
    rfl

theorem pixStep_z_decrease (sh : Vec3 → Vec3 → F32 → Color) (v0 v1 v2 : Vec3) (time : F32)
    (normal : Vec3) (p0 p1 p2 : Vec2) (denom : F32) (fb : Framebuffer) (xy : Int × Int) (i : Nat) :
    (pixStep sh v0 v1 v2 time normal p0 p1 p2 denom fb xy).z_buffer i = fb.z_buffer i ∨
      fLt ((pixStep sh v0 v1 v2 time normal p0 p1 p2 denom fb xy).z_buffer i)
        (fb.z_buffer i) = true := by
  simp only [pixStep]
  split
  · exact rasterWrite_z_decrease _ _ _ _ _ _
  · left
    rfl

theorem foldl_pixStep_z_decrease (sh : Vec3 → Vec3 → F32 → Color) (v0 v1 v2 : Vec3)
    (time : F32) (normal : Vec3) (p0 p1 p2 : Vec2) (denom : F32) (i : Nat) :
    ∀ (l : List (Int × Int)) (fb : Framebuffer),
      (l.foldl (pixStep sh v0 v1 v2 time normal p0 p1 p2 denom) fb).z_buffer i =
          fb.z_buffer i ∨
        fLt ((l.foldl (pixStep sh v0 v1 v2 time normal p0 p1 p2 denom) fb).z_buffer i)
          (fb.z_buffer i) = true := by
  intro l
  induction l with
  | nil => intro fb; left; rfl
  | cons hd tl ih =>
      intro fb
      rw [List.foldl_cons]
      rcases ih (pixStep sh v0 v1 v2 time normal p0 p1 p2 denom fb hd) with h1 | h1 <;>
        rcases pixStep_z_decrease sh v0 v1 v2 time normal p0 p1 p2 denom fb hd i with h2 | h2
      · left
        rw [h1, h2]
      · right
        rw [h1]
        exact h2
      · right
        rw [← h2]
        exact h1
      · right
        exact fLt_trans h1 h2

theorem drawRaster_z_decrease (ops : Ops) (sh : Vec3 → Vec3 → F32 → Color) (fb : Framebuffer)
    (v0 v1 v2 : Vec3) (time : F32) (i : Nat) :
    (drawRaster ops sh fb v0 v1 v2 time).z_buffer i = fb.z_buffer i ∨
      fLt ((drawRaster ops sh fb v0 v1 v2 time).z_buffer i) (fb.z_buffer i) = true := by
  simp only [drawRaster]
  split
  · left
    rfl
  · split
    · left
      rfl
    · exact foldl_pixStep_z_decrease _ _ _ _ _ _ _ _ _ _ _ _ fb

theorem set_pixel_depth_z_decrease (fb : Framebuffer) (x y : Int) (d : F32) (i : Nat) :
    (Framebuffer.set_pixel_depth fb x y d).z_buffer i = fb.z_buffer i ∨
      fLt ((Framebuffer.set_pixel_depth fb x y d).z_buffer i) (fb.z_buffer i) = true := by
  simp only [Framebuffer.set_pixel_depth]
  split
  · split
    · next h =>
        by_cases hi : i = pixIdx fb.width x y
        · subst hi
          right
          simpa using h
        · left
          simp [hi]
    · left
      rfl
  · left
    rfl

theorem set_pixel_depth_skip (fb : Framebuffer) (x y : Int) (d : F32)
    (h : fLt d (fb.z_buffer (pixIdx fb.width x y)) = false) :
    Framebuffer.set_pixel_depth fb x y d = fb := by
  simp only [Framebuffer.set_pixel_depth]
  split
  · rw [if_neg]
    rw [h]
    exact Bool.false_ne_true
  · rfl

/-! ## Access-index safety of the rasterizer loop -/

theorem rasterAccessIndices_lt (ops : Ops) (W H : Nat) (v0 v1 v2 : Vec3)
    (hWH : W * H < 4294967296) :
    ∀ i ∈ rasterAccessIndices ops W H v0 v1 v2, i < W * H := by
  intro i hi
  unfold rasterAccessIndices at hi
  by_cases hcull : fGe (faceNormal ops v0 v1 v2).z (fv 0) = true
  · rw [if_pos hcull] at hi
    cases hi
  · rw [if_neg hcull] at hi
    by_cases hden : fLt (fAbs (denomOf (projPt W H v0) (projPt W H v1) (projPt W H v2)))
        (fv (1/1000000)) = true
    · rw [if_pos hden] at hi
      cases hi
    · rw [if_neg hden] at hi
      obtain ⟨xy, hxy, rfl⟩ := List.mem_map.mp hi
      have hmem := (List.mem_filter.mp hxy).1
      obtain ⟨hb1, hb2, hb3, hb4⟩ := pixel_bounds hmem
      exact pixIdx_lt hb1 hb2 hb3 hb4 (by omega)

theorem foldl_pixStep_z_not_accessed (sh : Vec3 → Vec3 → F32 → Color) (v0 v1 v2 : Vec3)
    (time : F32) (normal : Vec3) (p0 p1 p2 : Vec2) (denom : F32) (W : Nat) (i : Nat) :
    ∀ (l : List (Int × Int)) (fb : Framebuffer), fb.width = W →
      (∀ p ∈ l, coverageAt p0 p1 p2 denom p.1 p.2 = true → pixIdx W p.1 p.2 ≠ i) →
      (l.foldl (pixStep sh v0 v1 v2 time normal p0 p1 p2 denom) fb).z_buffer i =
        fb.z_buffer i := by
  intro l
  induction l with
  | nil => intro fb _ _; rfl
  | cons hd tl ih =>
      intro fb hw hl
      rw [List.foldl_cons]
      have hstep : (pixStep sh v0 v1 v2 time normal p0 p1 p2 denom fb hd).z_buffer i =
          fb.z_buffer i := by
        simp only [pixStep]
        split
        · next hcov =>
            refine rasterWrite_z_other _ _ _ _ _ _ ?_
            rw [hw]
            exact fun h => (hl hd (List.mem_cons_self hd tl) hcov) h.symm
        · rfl
      have hstep_w : (pixStep sh v0 v1 v2 time normal p0 p1 p2 denom fb hd).width = W := by
        rw [pixStep_width, hw]
      rw [ih (pixStep sh v0 v1 v2 time normal p0 p1 p2 denom fb hd) hstep_w
        (fun p hp => hl p (List.mem_cons_of_mem hd hp)), hstep]

theorem drawRaster_z_unchanged_of_not_accessed (ops : Ops) (sh : Vec3 → Vec3 → F32 → Color)
    (fb : Framebuffer) (v0 v1 v2 : Vec3) (time : F32) (i : Nat)
    (h : i ∉ rasterAccessIndices ops fb.width fb.height v0 v1 v2) :
    (drawRaster ops sh fb v0 v1 v2 time).z_buffer i = fb.z_buffer i := by
  simp only [drawRaster]
  unfold rasterAccessIndices at h
  by_cases hcull : fGe (faceNormal ops v0 v1 v2).z (fv 0) = true
  · rw [if_pos hcull]
  · rw [if_neg hcull]
    rw [if_neg hcull] at h
    by_cases hden : fLt (fAbs (denomOf (projPt fb.width fb.height v0) (projPt fb.width fb.height v1)
        (projPt fb.width fb.height v2))) (fv (1/1000000)) = true
    · rw [if_pos hden]
    · rw [if_neg hden]
      rw [if_neg hden] at h
      refine foldl_pixStep_z_not_accessed _ _ _ _ _ _ _ _ _ _ _ _ _ fb rfl ?_
      intro p hp hcov hcontra
      exact h (List.mem_map.mpr ⟨p, List.mem_filter.mpr ⟨hp, hcov⟩, hcontra⟩)

/-! ## Range of the value-noise and fBm primitives -/

theorem fFloor_val (q : ℚ) : fFloor (F32.val q) = F32.val (⌊q⌋ : ℚ) := rfl

theorem hash_to_float_bound (x y : Int) :
    ∃ q : ℚ, hash_to_float x y = F32.val q ∧ 0 ≤ q ∧ q ≤ 1 := by
  unfold hash_to_float land16
  set n : Nat := Nat.land (toU32 (wadd (xor32 (wmul x 374761393) (wmul y 668265263)) 1274126177))
    65535 with hn
  have hle : n ≤ 65535 := Nat.and_le_right
  refine ⟨(n : ℚ) / 65535, ?_, ?_, ?_⟩
  · rw [show ((n : Int) : ℚ) = (n : ℚ) by push_cast; ring]
    exact fDiv_val _ (by norm_num)
  · positivity
  · rw [div_le_one (by norm_num)]
    exact_mod_cast hle

theorem fade_bound {t : ℚ} (h0 : 0 ≤ t) (h1 : t ≤ 1) :
    ∃ u : ℚ, fade (F32.val t) = F32.val u ∧ 0 ≤ u ∧ u ≤ 1 := by
  refine ⟨t * t * t * (t * (t * 6 - 15) + 10), ?_, ?_, ?_⟩
  · simp only [fade, fv, fMul_val, fSub_val, fAdd_val]
  · have hq : (0 : ℚ) < 6 * t^2 - 15 * t + 10 := by nlinarith [sq_nonneg (2 * t - 5/2)]
    have ht3 : 0 ≤ t * t * t := by positivity
    nlinarith [mul_nonneg ht3 hq.le]
  · have h2 : (0 : ℚ) ≤ (1 - t) * (1 - t) * (1 - t) * (6 * t^2 + 3 * t + 1) := by
      have ha : (0 : ℚ) ≤ 1 - t := by linarith
      have hb : (0 : ℚ) ≤ 6 * t^2 + 3 * t + 1 := by positivity
      positivity
    nlinarith [h2]

theorem lerp01_bound {a b t : ℚ} (ha0 : 0 ≤ a) (ha1 : a ≤ 1) (hb0 : 0 ≤ b) (hb1 : b ≤ 1)
    (ht0 : 0 ≤ t) (ht1 : t ≤ 1) :
    ∃ u : ℚ, lerp_f32 (F32.val a) (F32.val b) (F32.val t) = F32.val u ∧ 0 ≤ u ∧ u ≤ 1 := by
  refine ⟨a + (b - a) * t, ?_, ?_, ?_⟩
  · simp only [lerp_f32, fSub_val, fMul_val, fAdd_val]
  · nlinarith [mul_nonneg ha0 (by linarith : (0:ℚ) ≤ 1 - t), mul_nonneg hb0 ht0]
  · nlinarith [mul_nonneg (by linarith : (0:ℚ) ≤ 1 - a) (by linarith : (0:ℚ) ≤ 1 - t),
      mul_nonneg (by linarith : (0:ℚ) ≤ 1 - b) ht0]

theorem noise2d_bound (x y : ℚ) :
    ∃ u : ℚ, noise2d (F32.val x) (F32.val y) = F32.val u ∧ -1 ≤ u ∧ u ≤ 1 := by
  simp only [noise2d]
  obtain ⟨q00, e00, l00, u00⟩ := hash_to_float_bound (fToI32 (fFloor (F32.val x)))
    (fToI32 (fFloor (F32.val y)))
  obtain ⟨q10, e10, l10, u10⟩ := hash_to_float_bound (fToI32 (fFloor (F32.val x)) + 1)
    (fToI32 (fFloor (F32.val y)))
  obtain ⟨q01, e01, l01, u01⟩ := hash_to_float_bound (fToI32 (fFloor (F32.val x)))
    (fToI32 (fFloor (F32.val y)) + 1)
  obtain ⟨q11, e11, l11, u11⟩ := hash_to_float_bound (fToI32 (fFloor (F32.val x)) + 1)
    (fToI32 (fFloor (F32.val y)) + 1)
  rw [e00, e10, e01, e11, fFloor_val x, fFloor_val y, fSub_val, fSub_val]
  have hx0 : 0 ≤ x - (⌊x⌋ : ℚ) := sub_nonneg.mpr (Int.floor_le x)
  have hx1 : x - (⌊x⌋ : ℚ) ≤ 1 := by
    have := Int.lt_floor_add_one x
    linarith
  have hy0 : 0 ≤ y - (⌊y⌋ : ℚ) := sub_nonneg.mpr (Int.floor_le y)
  have hy1 : y - (⌊y⌋ : ℚ) ≤ 1 := by
    have := Int.lt_floor_add_one y
    linarith
  obtain ⟨fx, efx, lfx, ufx⟩ := fade_bound hx0 hx1
  obtain ⟨fy, efy, lfy, ufy⟩ := fade_bound hy0 hy1
  rw [efx, efy]
  obtain ⟨w1, ew1, lw1, uw1⟩ := lerp01_bound l00 u00 l10 u10 lfx ufx
  obtain ⟨w2, ew2, lw2, uw2⟩ := lerp01_bound l01 u01 l11 u11 lfx ufx
  rw [ew1, ew2]
  obtain ⟨w3, ew3, lw3, uw3⟩ := lerp01_bound lw1 uw1 lw2 uw2 lfy ufy
  rw [ew3]
  refine ⟨w3 * 2 - 1, ?_, by linarith, by linarith⟩
  simp only [fv, fMul_val, fSub_val]

theorem fbmLoop_spec (x y : ℚ) : ∀ (n : Nat) (s a f m : ℚ), 0 < a →
    ∃ s2 m2 : ℚ,
      fbmLoop (F32.val x) (F32.val y) n (F32.val s) (F32.val a) (F32.val f) (F32.val m) =
          (F32.val s2, F32.val m2) ∧
        |s2 - s| ≤ m2 - m ∧ m ≤ m2 ∧ (1 ≤ n → a ≤ m2 - m) := by
  intro n
  induction n with
  | zero =>
      intro s a f m _
      exact ⟨s, m, rfl, by simp, le_refl m, by omega⟩
  | succ k ih =>
      intro s a f m ha
      obtain ⟨u, eu, lu, uu⟩ := noise2d_bound (x * f) (y * f)
      have hstep : fbmLoop (F32.val x) (F32.val y) (k + 1) (F32.val s) (F32.val a) (F32.val f)
          (F32.val m) =
          fbmLoop (F32.val x) (F32.val y) k (F32.val (s + u * a)) (F32.val (a * (1/2)))
            (F32.val (f * 2)) (F32.val (m + a)) := by
        show fbmLoop (F32.val x) (F32.val y) k
            (fAdd (F32.val s) (fMul (noise2d (fMul (F32.val x) (F32.val f))
              (fMul (F32.val y) (F32.val f))) (F32.val a)))
            (fMul (F32.val a) (fv (1/2))) (fMul (F32.val f) (fv 2)) (fAdd (F32.val m) (F32.val a)) =
          _
        rw [fMul_val, fMul_val, eu]
        simp only [fv, fMul_val, fAdd_val]
      obtain ⟨s2, m2, heq, hb, hm, hA⟩ := ih (s + u * a) (a * (1/2)) (f * 2) (m + a)
        (by linarith)
      refine ⟨s2, m2, hstep.trans heq, ?_, by linarith, fun _ => by linarith⟩
      have habs : |u * a| ≤ a := by
        rw [abs_mul, abs_of_pos ha]
        have : |u| ≤ 1 := abs_le.mpr ⟨lu, uu⟩
        nlinarith
      calc |s2 - s| = |(s2 - (s + u * a)) + u * a| := by ring_nf
    _ ≤ |s2 - (s + u * a)| + |u * a| := abs_add _ _
    _ ≤ (m2 - (m + a)) + a := add_le_add hb habs
    _ = m2 - m := by ring

theorem fbm_noise_bound (x y : ℚ) (oct : Nat) (h : 1 ≤ oct) :
    ∃ q : ℚ, fbm_noise (F32.val x) (F32.val y) oct = F32.val q ∧ 0 ≤ q ∧ q ≤ 1 := by
  obtain ⟨s2, m2, heq, hb, hm, ha⟩ := fbmLoop_spec x y oct 0 1 1 0 one_pos
  have hm1 : 1 ≤ m2 := by
    have := ha h
    linarith
  have hms : |s2| ≤ m2 := by
    have : |s2 - 0| ≤ m2 - 0 := hb
    simpa using this
  have hm0 : (0 : ℚ) < m2 := by linarith
  obtain ⟨habs1, habs2⟩ := abs_le.mp hms
  have hd1 : s2 / m2 ≤ 1 := (div_le_one hm0).mpr habs2
  have hd2 : -1 ≤ s2 / m2 := (le_div_iff hm0).mpr (by linarith)
  refine ⟨(s2 / m2 + 1) * (1/2), ?_, by linarith, by linarith⟩
  unfold fbm_noise
  rw [show (fv 0 : F32) = F32.val 0 from rfl, show (fv 1 : F32) = F32.val 1 from rfl, heq]
  show fMul (fAdd (fDiv (F32.val s2) (F32.val m2)) (fv 1)) (fv (1/2)) = _
  rw [fDiv_val s2 (ne_of_gt hm0)]
  simp only [fv, fAdd_val, fMul_val]

/-! ## Alpha of shader outputs -/

theorem lerp_color_a (a b : Color) (t : F32) : (lerp_color a b t).a = 255 := rfl

theorem blend_colors_a (base top : Color) (alpha : F32) : (blend_colors base top alpha).a = 255 := rfl

theorem apply_emissive_a (base emissive : Color) (s : F32) : (apply_emissive base emissive s).a = 255 := rfl

theorem apply_atmosphere_a (ops : Ops) (c : Color) (p n : Vec3) (t : F32) :
    (apply_atmosphere ops c p n t).a = 255 := rfl

theorem shaderOf_a (ops : Ops) (st : ShaderType) (p n : Vec3) (t : F32) :
    (shaderOf ops st p n t).a = 255 := by
  cases st <;> rfl

theorem rasterWrite_color_cases (fb : Framebuffer) (x y : Int) (d : F32) (c : Color)
    (p : Int × Int) :
    (rasterWrite fb x y d c).color_buffer p = fb.color_buffer p ∨
      (rasterWrite fb x y d c).color_buffer p = c := by
  simp only [rasterWrite]
  split
  · simp only [Framebuffer.set_pixel_with_color]
    split
    · by_cases hp : p = (x, y)
      · right
        simp [hp]
      · left
        simp [hp]
    · left
      rfl
  · left
    rfl

theorem pixStep_color_cases (sh : Vec3 → Vec3 → F32 → Color) (v0 v1 v2 : Vec3) (time : F32)
    (normal : Vec3) (p0 p1 p2 : Vec2) (denom : F32) (fb : Framebuffer) (xy : Int × Int)
    (hsh : ∀ pos n t, (sh pos n t).a = 255) (p : Int × Int) :
    (pixStep sh v0 v1 v2 time normal p0 p1 p2 denom fb xy).color_buffer p = fb.color_buffer p ∨
      ((pixStep sh v0 v1 v2 time normal p0 p1 p2 denom fb xy).color_buffer p).a = 255 := by
  simp only [pixStep]
  split
  · rcases rasterWrite_color_cases fb xy.1 xy.2 _ _ p with h | h
    · left
      exact h
    · right
      rw [h, hsh]
  · left
    rfl

theorem foldl_pixStep_color_alpha (sh : Vec3 → Vec3 → F32 → Color) (v0 v1 v2 : Vec3)
    (time : F32) (normal : Vec3) (p0 p1 p2 : Vec2) (denom : F32)
    (hsh : ∀ pos n t, (sh pos n t).a = 255) (p : Int × Int) :
    ∀ (l : List (Int × Int)) (fb : Framebuffer),
      (l.foldl (pixStep sh v0 v1 v2 time normal p0 p1 p2 denom) fb).color_buffer p =
          fb.color_buffer p ∨
        ((l.foldl (pixStep sh v0 v1 v2 time normal p0 p1 p2 denom) fb).color_buffer p).a =
          255 := by
  intro l
  induction l with
  | nil => intro fb; left; rfl
  | cons hd tl ih =>
      intro fb
      rw [List.foldl_cons]
      rcases ih (pixStep sh v0 v1 v2 time normal p0 p1 p2 denom fb hd) with h1 | h1
      · rcases pixStep_color_cases sh v0 v1 v2 time normal p0 p1 p2 denom fb hd hsh p with h2 | h2
        · left
          rw [h1, h2]
        · right
          rw [h1]
          exact h2
      · right
        exact h1

theorem drawRaster_color_alpha (ops : Ops) (sh : Vec3 → Vec3 → F32 → Color) (fb : Framebuffer)
    (v0 v1 v2 : Vec3) (time : F32) (hsh : ∀ pos n t, (sh pos n t).a = 255) (p : Int × Int) :
    (drawRaster ops sh fb v0 v1 v2 time).color_buffer p = fb.color_buffer p ∨
      ((drawRaster ops sh fb v0 v1 v2 time).color_buffer p).a = 255 := by
  simp only [drawRaster]
  split
  · left
    rfl
  · split
    · left
      rfl
    · exact foldl_pixStep_color_alpha _ _ _ _ _ _ _ _ _ _ hsh p _ fb

/-! ## Order independence at a pixel -/

/-- The effect of one depth-tested triangle contribution on the (depth, color)
state of a single pixel. -/
def contribStep (att : Bool) (d : F32) (c : Color) (zc : F32 × Color) : F32 × Color :=
  if att && fLt d zc.1 then (d, c) else zc

theorem draw_pixel_as_step (ops : Ops) (st : ShaderType) (fb : Framebuffer)
    (v0 v1 v2 : Vec3) (time : F32) {x y : Int}
    (hWH : fb.width * fb.height < 2147483648)
    (hx0 : 0 ≤ x) (hxW : x < (fb.width : Int)) (hy0 : 0 ≤ y) (hyH : y < (fb.height : Int)) :
    ((draw_filled_triangle ops fb v0 v1 v2 st time).z_buffer (pixIdx fb.width x y),
      (draw_filled_triangle ops fb v0 v1 v2 st time).color_buffer (x, y)) =
      contribStep (attemptsAt ops fb.width fb.height v0 v1 v2 x y)
        (depthAtPix fb.width fb.height v0 v1 v2 x y)
        (colorAtPix ops (shaderOf ops st) fb.width fb.height v0 v1 v2 time x y)
        (fb.z_buffer (pixIdx fb.width x y), fb.color_buffer (x, y)) := by
  have hspec := drawRaster_pixel_spec ops (shaderOf ops st) fb v0 v1 v2 time hWH hx0 hxW hy0 hyH
  unfold contribStep
  by_cases hc : attemptsAt ops fb.width fb.height v0 v1 v2 x y = true ∧
      fLt (depthAtPix fb.width fb.height v0 v1 v2 x y) (fb.z_buffer (pixIdx fb.width x y)) = true
  · obtain ⟨hz, hcol⟩ := hspec.1 hc
    rw [if_pos (by rw [Bool.and_eq_true]; exact hc)]
    exact Prod.ext hz hcol
  · obtain ⟨hz, hcol⟩ := hspec.2 hc
    rw [if_neg (by rw [Bool.and_eq_true]; exact hc)]
    exact Prod.ext hz hcol

theorem contribStep_comm (aA aB : Bool) (dA dB : F32) (cA cB : Color) (zc : F32 × Color)
    (h : aA = true → aB = true → dA ≠ dB) :
    contribStep aB dB cB (contribStep aA dA cA zc) =
      contribStep aA dA cA (contribStep aB dB cB zc) := by
  unfold contribStep
  cases aA with
  | false => simp
  | true =>
      cases aB with
      | false => simp
      | true =>
          simp only [Bool.true_and]
          have hne : dA ≠ dB := h rfl rfl
          by_cases h1 : fLt dA zc.1 = true
          · by_cases h2 : fLt dB zc.1 = true
            · rcases fLt_connex h1 h2 hne with hAB | hBA
              · have hBA' : fLt dB dA = false := fLt_asymm hAB
                simp [h1, h2, hAB, hBA']
              · have hAB' : fLt dA dB = false := fLt_asymm hBA
                simp [h1, h2, hBA, hAB']
            · have hBA' : fLt dB dA = false := by
                cases hb : fLt dB dA
                · rfl
                · exact absurd (fLt_trans hb h1) h2
              simp [h1, h2, hBA']
          · by_cases h2 : fLt dB zc.1 = true
            · have hAB' : fLt dA dB = false := by
                cases ha : fLt dA dB
                · rfl
                · exact absurd (fLt_trans ha h2) h1
              simp [h1, h2, hAB']
            · simp [h1, h2]

/-! ## The inline write path versus set_pixel_depth -/

theorem rasterWrite_refines_set_pixel_depth (fb : Framebuffer) (x y : Int) (d : F32) (c : Color)
    (hx0 : 0 ≤ x) (hy0 : 0 ≤ y) (hxW : x < u32ToI32 fb.width) (hyH : y < u32ToI32 fb.height) :
    (rasterWrite fb x y d c).z_buffer =
        (Framebuffer.set_pixel_depth { fb with current_color := c } x y d).z_buffer ∧
      (rasterWrite fb x y d c).color_buffer =
        (Framebuffer.set_pixel_depth { fb with current_color := c } x y d).color_buffer := by
  have hin : 0 ≤ x ∧ 0 ≤ y ∧ x < u32ToI32 fb.width ∧ y < u32ToI32 fb.height :=
    ⟨hx0, hy0, hxW, hyH⟩
  simp only [rasterWrite, Framebuffer.set_pixel_depth, Framebuffer.set_pixel_with_color]
  rw [if_pos hin]
  split
  · exact ⟨rfl, rfl⟩
  · exact ⟨rfl, rfl⟩

theorem rasterWrite_skip (fb : Framebuffer) (x y : Int) (d : F32) (c : Color)
    (h : fLt d (fb.z_buffer (pixIdx fb.width x y)) = false) :
    rasterWrite fb x y d c = fb := by
  simp only [rasterWrite]
  rw [if_neg]
  rw [h]
  exact Bool.false_ne_true

theorem draw_filled_triangle_width (ops : Ops) (fb : Framebuffer) (v0 v1 v2 : Vec3)
    (st : ShaderType) (t : F32) : (draw_filled_triangle ops fb v0 v1 v2 st t).width = fb.width :=
  drawRaster_width ops (shaderOf ops st) fb v0 v1 v2 t

theorem draw_filled_triangle_height (ops : Ops) (fb : Framebuffer) (v0 v1 v2 : Vec3)
    (st : ShaderType) (t : F32) : (draw_filled_triangle ops fb v0 v1 v2 st t).height = fb.height :=
  drawRaster_height ops (shaderOf ops st) fb v0 v1 v2 t

theorem cf_fToU8 (c : Fin 256) : fToU8 (cf c) = c := by
  unfold cf
  show (⟨(max 0 (min 255 (ratTrunc ((c.val : Nat) : ℚ)))).toNat, _⟩ : Fin 256) = c
  have h1 : ratTrunc (((c.val : Nat) : ℚ)) = (c.val : Int) := by
    have := ratTrunc_intCast ((c.val : Nat) : Int)
    rw [← this]
    congr 1
  apply Fin.ext
  show (max 0 (min 255 (ratTrunc ((c.val : Nat) : ℚ)))).toNat = c.val
  rw [h1]
  have := c.isLt
  omega

/-! ## The claims -/

/-- C2: within a frame every depth-write path is monotone: set_pixel_depth
leaves each stored z-buffer entry equal or strictly decreased, it writes color
and depth only when the new depth is strictly below the stored depth at the
pixel index, and draw_filled_triangle likewise leaves each stored z-buffer
entry equal or strictly decreased. -/
theorem C2_depth_monotonic :
    (∀ (fb : Framebuffer) (x y : Int) (d : F32) (i : Nat),
        (Framebuffer.set_pixel_depth fb x y d).z_buffer i = fb.z_buffer i ∨
          fLt ((Framebuffer.set_pixel_depth fb x y d).z_buffer i) (fb.z_buffer i) = true) ∧
    (∀ (fb : Framebuffer) (x y : Int) (d : F32),
        fLt d (fb.z_buffer (pixIdx fb.width x y)) = false →
          Framebuffer.set_pixel_depth fb x y d = fb) ∧
    (∀ (ops : Ops) (fb : Framebuffer) (v0 v1 v2 : Vec3) (st : ShaderType) (t : F32) (i : Nat),
        (draw_filled_triangle ops fb v0 v1 v2 st t).z_buffer i = fb.z_buffer i ∨
          fLt ((draw_filled_triangle ops fb v0 v1 v2 st t).z_buffer i) (fb.z_buffer i) = true) :=
  ⟨set_pixel_depth_z_decrease, set_pixel_depth_skip,
    fun ops fb v0 v1 v2 st t i => drawRaster_z_decrease ops (shaderOf ops st) fb v0 v1 v2 t i⟩

/-- Witness for C2 at a concrete framebuffer, pixel and depth. -/
theorem C2_depth_monotonic_witness :
    fLt F32.inf ((Framebuffer.new 4 4 ⟨0, 0, 0, 255⟩).z_buffer (pixIdx 4 1 1)) = false ∧
      Framebuffer.set_pixel_depth (Framebuffer.new 4 4 ⟨0, 0, 0, 255⟩) 1 1 F32.inf =
        Framebuffer.new 4 4 ⟨0, 0, 0, 255⟩ :=
  ⟨by decide, C2_depth_monotonic.2.1 (Framebuffer.new 4 4 ⟨0, 0, 0, 255⟩) 1 1 F32.inf (by decide)⟩

/-- C3: a triangle with a NaN coordinate in any vertex is drawn without any
effect: draw_filled_triangle terminates (it is a total function) and returns
the framebuffer unchanged, because every barycentric coverage test fails on
the NaN weights. -/
theorem C3_nan_skipped (ops : Ops) (fb : Framebuffer) (v0 v1 v2 : Vec3) (st : ShaderType)
    (t : F32) (h : triHasNaN v0 v1 v2) :
    draw_filled_triangle ops fb v0 v1 v2 st t = fb :=
  drawRaster_eq_of_nan ops (shaderOf ops st) fb t h

/-- Witness for C3 at a concrete NaN-bearing triangle. -/
theorem C3_nan_skipped_witness :
    triHasNaN ⟨F32.nan, fv 0, fv 0⟩ ⟨fv 0, fv 1, fv 0⟩ ⟨fv 1, fv 1, fv 0⟩ ∧
      draw_filled_triangle defaultOps (Framebuffer.new 4 4 ⟨0, 0, 0, 255⟩)
          ⟨F32.nan, fv 0, fv 0⟩ ⟨fv 0, fv 1, fv 0⟩ ⟨fv 1, fv 1, fv 0⟩ ShaderType.Rocky (fv 0) =
        Framebuffer.new 4 4 ⟨0, 0, 0, 255⟩ :=
  ⟨by decide, C3_nan_skipped defaultOps (Framebuffer.new 4 4 ⟨0, 0, 0, 255⟩) _ _ _
    ShaderType.Rocky (fv 0) (by decide)⟩

/-- C4 counterexample: with a +infinity z coordinate on one vertex the face
normal is NaN for both windings, so neither winding is culled, and both
drawing orders write depth at index 6 of a 4 x 4 framebuffer: the claim that
at most one of the two windings performs a pixel write fails as stated. -/
theorem C4_backface_cx :
    ¬ (draw_filled_triangle defaultOps (Framebuffer.new 4 4 ⟨0, 0, 0, 255⟩)
          ⟨fv 0, fv 0, F32.inf⟩ ⟨fv 0, fv 1, fv 0⟩ ⟨fv 1, fv 1, fv 0⟩ ShaderType.Rocky (fv 0) =
        Framebuffer.new 4 4 ⟨0, 0, 0, 255⟩ ∨
      draw_filled_triangle defaultOps (Framebuffer.new 4 4 ⟨0, 0, 0, 255⟩)
          ⟨fv 0, fv 0, F32.inf⟩ ⟨fv 1, fv 1, fv 0⟩ ⟨fv 0, fv 1, fv 0⟩ ShaderType.Rocky (fv 0) =
        Framebuffer.new 4 4 ⟨0, 0, 0, 255⟩) := by
  rintro (h | h) <;>
    exact absurd (congrArg (fun f => f.z_buffer 6) h) (by decide)

/-- C4 (amended): for every triangle none of whose coordinates is an
infinity, at most one of the two windings draws: either
draw_filled_triangle(fb, v0, v1, v2) or draw_filled_triangle(fb, v0, v2, v1)
returns the framebuffer unchanged, because the reversed winding negates the
face normal and the cull test discards a normal with nonnegative z (NaN
normals of NaN-bearing triangles draw nothing at all). -/
theorem C4_backface_amended (ops : Ops) (fb : Framebuffer) (v0 v1 v2 : Vec3) (st : ShaderType)
    (t : F32) (h : triNoInf v0 v1 v2) :
    draw_filled_triangle ops fb v0 v1 v2 st t = fb ∨
      draw_filled_triangle ops fb v0 v2 v1 st t = fb :=
  drawRaster_backface ops (shaderOf ops st) fb v0 v1 v2 t h

/-- Witness for the amended C4 at a concrete finite triangle. -/
theorem C4_backface_amended_witness :
    triNoInf ⟨fv (-1), fv (-1), fv 0⟩ ⟨fv 0, fv 1, fv 0⟩ ⟨fv 1, fv (-1), fv 0⟩ ∧
      (draw_filled_triangle defaultOps (Framebuffer.new 4 4 ⟨0, 0, 0, 255⟩)
            ⟨fv (-1), fv (-1), fv 0⟩ ⟨fv 0, fv 1, fv 0⟩ ⟨fv 1, fv (-1), fv 0⟩
            ShaderType.Rocky (fv 0) = Framebuffer.new 4 4 ⟨0, 0, 0, 255⟩ ∨
        draw_filled_triangle defaultOps (Framebuffer.new 4 4 ⟨0, 0, 0, 255⟩)
            ⟨fv (-1), fv (-1), fv 0⟩ ⟨fv 1, fv (-1), fv 0⟩ ⟨fv 0, fv 1, fv 0⟩
            ShaderType.Rocky (fv 0) = Framebuffer.new 4 4 ⟨0, 0, 0, 255⟩) :=
  ⟨by decide, C4_backface_amended defaultOps (Framebuffer.new 4 4 ⟨0, 0, 0, 255⟩)
    ⟨fv (-1), fv (-1), fv 0⟩ ⟨fv 0, fv 1, fv 0⟩ ⟨fv 1, fv (-1), fv 0⟩ ShaderType.Rocky (fv 0)
    (by decide)⟩

/-- C5 counterexample: blend_colors constructs its result with alpha 255, so
blend(base, top, 0) differs from base whenever the base alpha is not 255; the
identity fails as stated over every pair of colors. -/
theorem C5_blend_cx :
    blend_colors ⟨1, 2, 3, 7⟩ ⟨9, 9, 9, 9⟩ (fv 0) ≠ (⟨1, 2, 3, 7⟩ : Color) := by
  decide

/-- C5 (amended): the straight-alpha blend identities hold on the r, g and b
channels: blend(base, top, 0) agrees with base and blend(base, top, 1) agrees
with top channelwise (the alpha of the result is always 255). -/
theorem C5_blend_identities (base top : Color) :
    ((blend_colors base top (fv 0)).r = base.r ∧ (blend_colors base top (fv 0)).g = base.g ∧
      (blend_colors base top (fv 0)).b = base.b) ∧
    ((blend_colors base top (fv 1)).r = top.r ∧ (blend_colors base top (fv 1)).g = top.g ∧
      (blend_colors base top (fv 1)).b = top.b) := by
  have h0 : fClamp (fv 0) (fv 0) (fv 1) = F32.val 0 := by decide
  have h1 : fClamp (fv 1) (fv 0) (fv 1) = F32.val 1 := by decide
  have key0 : ∀ (b t : Fin 256),
      fToU8 (fAdd (fMul (cf b) (fSub (fv 1) (F32.val 0))) (fMul (cf t) (F32.val 0))) = b := by
    intro b t
    have he : fAdd (fMul (cf b) (fSub (fv 1) (F32.val 0))) (fMul (cf t) (F32.val 0)) = cf b := by
      unfold cf fv
      rw [fSub_val, fMul_val, fMul_val, fAdd_val]
      congr 1
      ring
    rw [he]
    exact cf_fToU8 b
  have key1 : ∀ (b t : Fin 256),
      fToU8 (fAdd (fMul (cf b) (fSub (fv 1) (F32.val 1))) (fMul (cf t) (F32.val 1))) = t := by
    intro b t
    have he : fAdd (fMul (cf b) (fSub (fv 1) (F32.val 1))) (fMul (cf t) (F32.val 1)) = cf t := by
      unfold cf fv
      rw [fSub_val, fMul_val, fMul_val, fAdd_val]
      congr 1
      ring
    rw [he]
    exact cf_fToU8 t
  refine ⟨⟨?_, ?_, ?_⟩, ⟨?_, ?_, ?_⟩⟩ <;>
    simp only [blend_colors, h0, h1] <;>
    first
      | exact key0 base.r top.r
      | exact key0 base.g top.g
      | exact key0 base.b top.b
      | exact key1 base.r top.r
      | exact key1 base.g top.g
      | exact key1 base.b top.b

/-- C6: for octave counts between 1 and 8 and finite input coordinates,
fbm_noise returns a finite value within the closed interval [0, 1]. -/
theorem C6_fbm_range (x y : ℚ) (oct : Nat) (h1 : 1 ≤ oct) (h8 : oct ≤ 8) :
    ∃ q : ℚ, fbm_noise (F32.val x) (F32.val y) oct = F32.val q ∧ 0 ≤ q ∧ q ≤ 1 :=
  fbm_noise_bound x y oct h1

/-- Witness for C6 at concrete coordinates and octave count. -/
theorem C6_fbm_range_witness :
    ((1 : Nat) ≤ 3 ∧ (3 : Nat) ≤ 8) ∧
      ∃ q : ℚ, fbm_noise (F32.val 0) (F32.val 0) 3 = F32.val q ∧ 0 ≤ q ∧ q ≤ 1 :=
  ⟨by decide, C6_fbm_range 0 0 3 (by decide) (by decide)⟩

/-- C7: a pixel of the framebuffer outside the clamped screen-space bounding
box of the three projected vertices keeps its color and its depth under
draw_filled_triangle. -/
theorem C7_outside_bbox (ops : Ops) (fb : Framebuffer) (v0 v1 v2 : Vec3) (st : ShaderType)
    (t : F32) {x y : Int} (hWH : fb.width * fb.height < 2147483648)
    (hx0 : 0 ≤ x) (hxW : x < (fb.width : Int)) (hy0 : 0 ≤ y) (hyH : y < (fb.height : Int))
    (hout : ¬ inBBoxAt fb.width fb.height v0 v1 v2 x y) :
    (draw_filled_triangle ops fb v0 v1 v2 st t).color_buffer (x, y) = fb.color_buffer (x, y) ∧
      (draw_filled_triangle ops fb v0 v1 v2 st t).z_buffer (pixIdx fb.width x y) =
        fb.z_buffer (pixIdx fb.width x y) := by
  have hatt : attemptsAt ops fb.width fb.height v0 v1 v2 x y = false := by
    unfold attemptsAt
    simp [hout]
  have hspec := (drawRaster_pixel_spec ops (shaderOf ops st) fb v0 v1 v2 t hWH
    hx0 hxW hy0 hyH).2 (fun hc => by rw [hatt] at hc; cases hc.1)
  exact ⟨hspec.2, hspec.1⟩

/-- Witness for C7: pixel (0, 0) lies outside the bounding box of a small
central triangle and is untouched. -/
theorem C7_outside_bbox_witness :
    ((4 : Nat) * 4 < 2147483648 ∧ (0 : Int) ≤ 0 ∧ (0 : Int) < (4 : Nat) ∧
        ¬ inBBoxAt 4 4 ⟨fv (-1), fv (-1), fv 0⟩ ⟨fv 0, fv 1, fv 0⟩ ⟨fv 1, fv (-1), fv 0⟩ 0 0) ∧
      ((draw_filled_triangle defaultOps (Framebuffer.new 4 4 ⟨0, 0, 0, 255⟩)
            ⟨fv (-1), fv (-1), fv 0⟩ ⟨fv 0, fv 1, fv 0⟩ ⟨fv 1, fv (-1), fv 0⟩
            ShaderType.Rocky (fv 0)).color_buffer (0, 0) =
          (Framebuffer.new 4 4 ⟨0, 0, 0, 255⟩).color_buffer (0, 0) ∧
        (draw_filled_triangle defaultOps (Framebuffer.new 4 4 ⟨0, 0, 0, 255⟩)
            ⟨fv (-1), fv (-1), fv 0⟩ ⟨fv 0, fv 1, fv 0⟩ ⟨fv 1, fv (-1), fv 0⟩
            ShaderType.Rocky (fv 0)).z_buffer (pixIdx 4 0 0) =
          (Framebuffer.new 4 4 ⟨0, 0, 0, 255⟩).z_buffer (pixIdx 4 0 0)) :=
  ⟨⟨by decide, by decide, by decide, by decide⟩,
    C7_outside_bbox defaultOps (Framebuffer.new 4 4 ⟨0, 0, 0, 255⟩)
      ⟨fv (-1), fv (-1), fv 0⟩ ⟨fv 0, fv 1, fv 0⟩ ⟨fv 1, fv (-1), fv 0⟩ ShaderType.Rocky (fv 0)
      (by decide) (by decide) (by decide) (by decide) (by decide) (by decide)⟩

/-- C8: for every in-bounds pixel, the rasterizer inline per-pixel write
sequence is behaviorally equal to the Framebuffer depth-tested write path
set_pixel_depth run with the shaded color as current color: the two produce
identical color and z buffers, and when the new depth is not strictly below
the stored depth both leave their framebuffer unchanged. -/
theorem C8_write_path_equiv (fb : Framebuffer) (x y : Int) (d : F32) (c : Color)
    (hx0 : 0 ≤ x) (hy0 : 0 ≤ y) (hxW : x < u32ToI32 fb.width) (hyH : y < u32ToI32 fb.height) :
    ((rasterWrite fb x y d c).z_buffer =
        (Framebuffer.set_pixel_depth { fb with current_color := c } x y d).z_buffer ∧
      (rasterWrite fb x y d c).color_buffer =
        (Framebuffer.set_pixel_depth { fb with current_color := c } x y d).color_buffer) ∧
    (fLt d (fb.z_buffer (pixIdx fb.width x y)) = false →
      rasterWrite fb x y d c = fb ∧
        Framebuffer.set_pixel_depth { fb with current_color := c } x y d =
          { fb with current_color := c }) :=
  ⟨rasterWrite_refines_set_pixel_depth fb x y d c hx0 hy0 hxW hyH,
    fun h => ⟨rasterWrite_skip fb x y d c h,
      set_pixel_depth_skip { fb with current_color := c } x y d h⟩⟩

/-- Witness for C8 at a concrete in-bounds pixel. -/
theorem C8_write_path_equiv_witness :
    ((0 : Int) ≤ 1 ∧ (0 : Int) ≤ 2 ∧ (1 : Int) < u32ToI32 4 ∧ (2 : Int) < u32ToI32 4) ∧
      ((rasterWrite (Framebuffer.new 4 4 ⟨0, 0, 0, 255⟩) 1 2 (fv 1) ⟨5, 6, 7, 255⟩).z_buffer =
          (Framebuffer.set_pixel_depth
            { Framebuffer.new 4 4 ⟨0, 0, 0, 255⟩ with current_color := ⟨5, 6, 7, 255⟩ } 1 2
            (fv 1)).z_buffer ∧
        (rasterWrite (Framebuffer.new 4 4 ⟨0, 0, 0, 255⟩) 1 2 (fv 1) ⟨5, 6, 7, 255⟩).color_buffer =
          (Framebuffer.set_pixel_depth
            { Framebuffer.new 4 4 ⟨0, 0, 0, 255⟩ with current_color := ⟨5, 6, 7, 255⟩ } 1 2
            (fv 1)).color_buffer) :=
  ⟨⟨by decide, by decide, by decide, by decide⟩,
    (C8_write_path_equiv (Framebuffer.new 4 4 ⟨0, 0, 0, 255⟩) 1 2 (fv 1) ⟨5, 6, 7, 255⟩
      (by decide) (by decide) (by decide) (by decide)).1⟩

/-- C9: lerp_color, blend_colors and apply_emissive construct their results
with alpha 255, every dispatched material shader returns alpha 255, and hence
every pixel written by draw_filled_triangle carries alpha 255. -/
theorem C9_alpha_opaque :
    (∀ (a b : Color) (t : F32), (lerp_color a b t).a = 255) ∧
    (∀ (base top : Color) (al : F32), (blend_colors base top al).a = 255) ∧
    (∀ (base emissive : Color) (s : F32), (apply_emissive base emissive s).a = 255) ∧
    (∀ (ops : Ops) (st : ShaderType) (p n : Vec3) (t : F32), (shaderOf ops st p n t).a = 255) ∧
    (∀ (ops : Ops) (fb : Framebuffer) (v0 v1 v2 : Vec3) (st : ShaderType) (t : F32)
        (p : Int × Int),
        (draw_filled_triangle ops fb v0 v1 v2 st t).color_buffer p = fb.color_buffer p ∨
          ((draw_filled_triangle ops fb v0 v1 v2 st t).color_buffer p).a = 255) :=
  ⟨lerp_color_a, blend_colors_a, apply_emissive_a, shaderOf_a,
    fun ops fb v0 v1 v2 st t p =>
      drawRaster_color_alpha ops (shaderOf ops st) fb v0 v1 v2 t (shaderOf_a ops st) p⟩

/-- C10: with a z-buffer of length width * height (as Framebuffer::new
allocates when the u32 product does not wrap), every z-buffer index the
rasterizer reads or writes is in range, for every input including NaN-bearing
ones; moreover draw_filled_triangle changes the z-buffer only at accessed
indices. -/
theorem C10_index_safety (ops : Ops) (fb : Framebuffer) (v0 v1 v2 : Vec3) (st : ShaderType)
    (t : F32) (hWH : fb.width * fb.height < 4294967296) :
    (∀ i ∈ rasterAccessIndices ops fb.width fb.height v0 v1 v2, i < fb.width * fb.height) ∧
    (∀ i : Nat, i ∉ rasterAccessIndices ops fb.width fb.height v0 v1 v2 →
        (draw_filled_triangle ops fb v0 v1 v2 st t).z_buffer i = fb.z_buffer i) :=
  ⟨rasterAccessIndices_lt ops fb.width fb.height v0 v1 v2 hWH,
    fun i hi => drawRaster_z_unchanged_of_not_accessed ops (shaderOf ops st) fb v0 v1 v2 t i hi⟩

/-- Witness for C10 at a concrete framebuffer and triangle (including a NaN
vertex in a second use would also hold; here a finite covered triangle). -/
theorem C10_index_safety_witness :
    ((4 : Nat) * 4 < 4294967296) ∧
      (∀ i ∈ rasterAccessIndices defaultOps 4 4 ⟨fv (-1), fv (-1), fv 0⟩ ⟨fv 0, fv 1, fv 0⟩
          ⟨fv 1, fv (-1), fv 0⟩, i < 4 * 4) :=
  ⟨by decide,
    (C10_index_safety defaultOps (Framebuffer.new 4 4 ⟨0, 0, 0, 255⟩) ⟨fv (-1), fv (-1), fv 0⟩
      ⟨fv 0, fv 1, fv 0⟩ ⟨fv 1, fv (-1), fv 0⟩ ShaderType.Rocky (fv 0) (by decide)).1⟩

set_option maxRecDepth 100000 in
/-- C1 counterexample: two overlapping coplanar z = 0 triangles interpolate
exactly equal depths at the shared pixel (2, 2) of a freshly created 4 x 4
framebuffer, so the depth test keeps whichever color was drawn first and the
two drawing orders give different final colors there. -/
theorem C1_order_cx :
    (draw_filled_triangle defaultOps
        (draw_filled_triangle defaultOps (Framebuffer.new 4 4 ⟨0, 0, 0, 255⟩)
          ⟨fv (-1), fv (-1), fv 0⟩ ⟨fv 0, fv 1, fv 0⟩ ⟨fv 1, fv (-1), fv 0⟩
          ShaderType.Rocky (fv 0))
        ⟨fv (-1), fv (-1), fv 0⟩ ⟨fv 1, fv 1, fv 0⟩ ⟨fv 1, fv (-1), fv 0⟩
        ShaderType.Gas (fv 0)).color_buffer (2, 2) ≠
      (draw_filled_triangle defaultOps
        (draw_filled_triangle defaultOps (Framebuffer.new 4 4 ⟨0, 0, 0, 255⟩)
          ⟨fv (-1), fv (-1), fv 0⟩ ⟨fv 1, fv 1, fv 0⟩ ⟨fv 1, fv (-1), fv 0⟩
          ShaderType.Gas (fv 0))
        ⟨fv (-1), fv (-1), fv 0⟩ ⟨fv 0, fv 1, fv 0⟩ ⟨fv 1, fv (-1), fv 0⟩
        ShaderType.Rocky (fv 0)).color_buffer (2, 2) := by
  decide

/-- C1 (amended): drawing two triangles in either order yields the identical
final color and depth at every framebuffer pixel at which their interpolated
depths differ (whenever both triangles reach the depth test there), and at
such a pixel the nearer triangle wins: if the first triangle attempts the
pixel with a depth strictly below both the second depth and the stored
depth, the final depth and color are its contribution. -/
theorem C1_order_independent (ops : Ops) (fb : Framebuffer)
    (vA0 vA1 vA2 vB0 vB1 vB2 : Vec3) (stA stB : ShaderType) (tA tB : F32) {x y : Int}
    (hWH : fb.width * fb.height < 2147483648)
    (hx0 : 0 ≤ x) (hxW : x < (fb.width : Int)) (hy0 : 0 ≤ y) (hyH : y < (fb.height : Int))
    (hdep : attemptsAt ops fb.width fb.height vA0 vA1 vA2 x y = true →
      attemptsAt ops fb.width fb.height vB0 vB1 vB2 x y = true →
      depthAtPix fb.width fb.height vA0 vA1 vA2 x y ≠
        depthAtPix fb.width fb.height vB0 vB1 vB2 x y) :
    ((draw_filled_triangle ops (draw_filled_triangle ops fb vA0 vA1 vA2 stA tA)
          vB0 vB1 vB2 stB tB).z_buffer (pixIdx fb.width x y) =
        (draw_filled_triangle ops (draw_filled_triangle ops fb vB0 vB1 vB2 stB tB)
          vA0 vA1 vA2 stA tA).z_buffer (pixIdx fb.width x y) ∧
      (draw_filled_triangle ops (draw_filled_triangle ops fb vA0 vA1 vA2 stA tA)
          vB0 vB1 vB2 stB tB).color_buffer (x, y) =
        (draw_filled_triangle ops (draw_filled_triangle ops fb vB0 vB1 vB2 stB tB)
          vA0 vA1 vA2 stA tA).color_buffer (x, y)) ∧
    (attemptsAt ops fb.width fb.height vA0 vA1 vA2 x y = true →
      fLt (depthAtPix fb.width fb.height vA0 vA1 vA2 x y)
          (depthAtPix fb.width fb.height vB0 vB1 vB2 x y) = true →
      fLt (depthAtPix fb.width fb.height vA0 vA1 vA2 x y)
          (fb.z_buffer (pixIdx fb.width x y)) = true →
      (draw_filled_triangle ops (draw_filled_triangle ops fb vA0 vA1 vA2 stA tA)
          vB0 vB1 vB2 stB tB).z_buffer (pixIdx fb.width x y) =
          depthAtPix fb.width fb.height vA0 vA1 vA2 x y ∧
        (draw_filled_triangle ops (draw_filled_triangle ops fb vA0 vA1 vA2 stA tA)
            vB0 vB1 vB2 stB tB).color_buffer (x, y) =
          colorAtPix ops (shaderOf ops stA) fb.width fb.height vA0 vA1 vA2 tA x y) := by
  set fbA := draw_filled_triangle ops fb vA0 vA1 vA2 stA tA with hfbA
  set fbB := draw_filled_triangle ops fb vB0 vB1 vB2 stB tB with hfbB
  have hwA : fbA.width = fb.width := draw_filled_triangle_width ops fb vA0 vA1 vA2 stA tA
  have hhA : fbA.height = fb.height := draw_filled_triangle_height ops fb vA0 vA1 vA2 stA tA
  have hwB : fbB.width = fb.width := draw_filled_triangle_width ops fb vB0 vB1 vB2 stB tB
  have hhB : fbB.height = fb.height := draw_filled_triangle_height ops fb vB0 vB1 vB2 stB tB
  have hA := draw_pixel_as_step ops stA fb vA0 vA1 vA2 tA hWH hx0 hxW hy0 hyH
  have hB := draw_pixel_as_step ops stB fb vB0 vB1 vB2 tB hWH hx0 hxW hy0 hyH
  have hBA := draw_pixel_as_step ops stB fbA vB0 vB1 vB2 tB
    (by rw [hwA, hhA]; exact hWH) hx0 (by rw [hwA]; exact hxW) hy0 (by rw [hhA]; exact hyH)
  have hAB := draw_pixel_as_step ops stA fbB vA0 vA1 vA2 tA
    (by rw [hwB, hhB]; exact hWH) hx0 (by rw [hwB]; exact hxW) hy0 (by rw [hhB]; exact hyH)
  rw [hwA, hhA] at hBA
  rw [hwB, hhB] at hAB
  rw [← hfbA] at hA
  rw [← hfbB] at hB
  rw [hA] at hBA
  rw [hB] at hAB
  have hcomm := contribStep_comm (attemptsAt ops fb.width fb.height vA0 vA1 vA2 x y)
    (attemptsAt ops fb.width fb.height vB0 vB1 vB2 x y)
    (depthAtPix fb.width fb.height vA0 vA1 vA2 x y)
    (depthAtPix fb.width fb.height vB0 vB1 vB2 x y)
    (colorAtPix ops (shaderOf ops stA) fb.width fb.height vA0 vA1 vA2 tA x y)
    (colorAtPix ops (shaderOf ops stB) fb.width fb.height vB0 vB1 vB2 tB x y)
    (fb.z_buffer (pixIdx fb.width x y), fb.color_buffer (x, y)) hdep
  have hpair := hBA.trans (hcomm.trans hAB.symm)
  constructor
  · exact ⟨congrArg Prod.fst hpair, congrArg Prod.snd hpair⟩
  · intro hattA hltAB hltA0
    have hstepA : contribStep (attemptsAt ops fb.width fb.height vA0 vA1 vA2 x y)
        (depthAtPix fb.width fb.height vA0 vA1 vA2 x y)
        (colorAtPix ops (shaderOf ops stA) fb.width fb.height vA0 vA1 vA2 tA x y)
        (fb.z_buffer (pixIdx fb.width x y), fb.color_buffer (x, y)) =
        (depthAtPix fb.width fb.height vA0 vA1 vA2 x y,
          colorAtPix ops (shaderOf ops stA) fb.width fb.height vA0 vA1 vA2 tA x y) := by
      unfold contribStep
      rw [if_pos (by rw [hattA, hltA0]; rfl)]
    have hBAfalse : fLt (depthAtPix fb.width fb.height vB0 vB1 vB2 x y)
        (depthAtPix fb.width fb.height vA0 vA1 vA2 x y) = false := fLt_asymm hltAB
    have hstepB : contribStep (attemptsAt ops fb.width fb.height vB0 vB1 vB2 x y)
        (depthAtPix fb.width fb.height vB0 vB1 vB2 x y)
        (colorAtPix ops (shaderOf ops stB) fb.width fb.height vB0 vB1 vB2 tB x y)
        (depthAtPix fb.width fb.height vA0 vA1 vA2 x y,
          colorAtPix ops (shaderOf ops stA) fb.width fb.height vA0 vA1 vA2 tA x y) =
        (depthAtPix fb.width fb.height vA0 vA1 vA2 x y,
          colorAtPix ops (shaderOf ops stA) fb.width fb.height vA0 vA1 vA2 tA x y) := by
      unfold contribStep
      rw [if_neg]
      rw [hBAfalse, Bool.and_false]
      exact Bool.false_ne_true
    have hfinal := hBA.trans (by rw [hstepA, hstepB])
    exact ⟨congrArg Prod.fst hfinal, congrArg Prod.snd hfinal⟩

set_option maxRecDepth 100000 in
/-- Witness for the amended C1: a near triangle at z = 0 and a far triangle at
z = 1 share pixel (1, 2) with different interpolated depths, and the two
drawing orders agree there. -/
theorem C1_order_independent_witness :
    (((4 : Nat) * 4 < 2147483648) ∧ ((0 : Int) ≤ 1) ∧ ((1 : Int) < (4 : Nat)) ∧
      (attemptsAt defaultOps 4 4 ⟨fv (-1), fv (-1), fv 0⟩ ⟨fv 0, fv 1, fv 0⟩
          ⟨fv 1, fv (-1), fv 0⟩ 1 2 = true →
        attemptsAt defaultOps 4 4 ⟨fv (-1), fv (-1), fv 1⟩ ⟨fv 0, fv 1, fv 1⟩
            ⟨fv 1, fv (-1), fv 1⟩ 1 2 = true →
        depthAtPix 4 4 ⟨fv (-1), fv (-1), fv 0⟩ ⟨fv 0, fv 1, fv 0⟩ ⟨fv 1, fv (-1), fv 0⟩ 1 2 ≠
          depthAtPix 4 4 ⟨fv (-1), fv (-1), fv 1⟩ ⟨fv 0, fv 1, fv 1⟩ ⟨fv 1, fv (-1), fv 1⟩ 1 2)) ∧
    ((draw_filled_triangle defaultOps
        (draw_filled_triangle defaultOps (Framebuffer.new 4 4 ⟨0, 0, 0, 255⟩)
          ⟨fv (-1), fv (-1), fv 0⟩ ⟨fv 0, fv 1, fv 0⟩ ⟨fv 1, fv (-1), fv 0⟩
          ShaderType.Rocky (fv 0))
        ⟨fv (-1), fv (-1), fv 1⟩ ⟨fv 0, fv 1, fv 1⟩ ⟨fv 1, fv (-1), fv 1⟩
        ShaderType.Gas (fv 0)).z_buffer (pixIdx 4 1 2) =
      (draw_filled_triangle defaultOps
        (draw_filled_triangle defaultOps (Framebuffer.new 4 4 ⟨0, 0, 0, 255⟩)
          ⟨fv (-1), fv (-1), fv 1⟩ ⟨fv 0, fv 1, fv 1⟩ ⟨fv 1, fv (-1), fv 1⟩
          ShaderType.Gas (fv 0))
        ⟨fv (-1), fv (-1), fv 0⟩ ⟨fv 0, fv 1, fv 0⟩ ⟨fv 1, fv (-1), fv 0⟩
        ShaderType.Rocky (fv 0)).z_buffer (pixIdx 4 1 2) ∧
    (draw_filled_triangle defaultOps
        (draw_filled_triangle defaultOps (Framebuffer.new 4 4 ⟨0, 0, 0, 255⟩)
          ⟨fv (-1), fv (-1), fv 0⟩ ⟨fv 0, fv 1, fv 0⟩ ⟨fv 1, fv (-1), fv 0⟩
          ShaderType.Rocky (fv 0))
        ⟨fv (-1), fv (-1), fv 1⟩ ⟨fv 0, fv 1, fv 1⟩ ⟨fv 1, fv (-1), fv 1⟩
        ShaderType.Gas (fv 0)).color_buffer (1, 2) =
      (draw_filled_triangle defaultOps
        (draw_filled_triangle defaultOps (Framebuffer.new 4 4 ⟨0, 0, 0, 255⟩)
          ⟨fv (-1), fv (-1), fv 1⟩ ⟨fv 0, fv 1, fv 1⟩ ⟨fv 1, fv (-1), fv 1⟩
          ShaderType.Gas (fv 0))
        ⟨fv (-1), fv (-1), fv 0⟩ ⟨fv 0, fv 1, fv 0⟩ ⟨fv 1, fv (-1), fv 0⟩
        ShaderType.Rocky (fv 0)).color_buffer (1, 2)) :=
  ⟨⟨by decide, by decide, by decide, by decide⟩,
    (C1_order_independent defaultOps (Framebuffer.new 4 4 ⟨0, 0, 0, 255⟩)
      ⟨fv (-1), fv (-1), fv 0⟩ ⟨fv 0, fv 1, fv 0⟩ ⟨fv 1, fv (-1), fv 0⟩
      ⟨fv (-1), fv (-1), fv 1⟩ ⟨fv 0, fv 1, fv 1⟩ ⟨fv 1, fv (-1), fv 1⟩
      ShaderType.Rocky ShaderType.Gas (fv 0) (fv 0) (by decide) (by decide) (by decide)
      (by decide) (by decide) (by decide)).1⟩
